import Mathlib

/-!
Shallow embedding of the file-sync reconciliation core (TypeScript sources:
`SymlinkManager`, `SyncPlanner`, `SyncEngine`, `WorktreeManager`).

Filesystem model: an association list from absolute paths (segment lists) to
nodes.  A node is a plain file, a directory, a symbolic link carrying its link
text, or an inaccessible entry (an entry whose `lstat` fails with a
permission-style error, modelling EACCES and friends).  All the Node.js `fs`
primitives the sources use (`lstatSync`, `readlinkSync`, `existsSync`,
`symlinkSync`, `unlinkSync`, recursive `mkdir`) are modelled over this map,
with errors as `Except String` carrying the errno code.  `path.resolve`,
`path.relative`, `path.join`, `path.dirname` are modelled lexically on segment
lists, exactly as Node's implementations are lexical (they never consult the
filesystem).
-/

namespace FileSync

/-- An absolute filesystem path, as its list of segments ("/a/b" is ["a","b"]). -/
abbrev Path := List String

/-- Link text stored inside a symbolic link: an absolute or relative path
string, kept as segments (a relative text may contain ".." segments). -/
structure LinkText where
  isAbs : Bool
  segs : List String
deriving DecidableEq, Repr

/-- A filesystem node: plain file, directory, symbolic link, or an entry whose
`lstat` fails with a non-ENOENT error (permission denied and similar). -/
inductive FsNode where
  | file : FsNode
  | dir : FsNode
  | symlink (t : LinkText) : FsNode
  | inaccessible : FsNode
deriving DecidableEq, Repr

/-- A filesystem: an association list from paths to nodes. -/
abbrev FS := List (Path × FsNode)

/-- Lookup of the node stored at a path (first match wins). -/
def findNode : FS → Path → Option FsNode
  | [], _ => none
  | e :: rest, p => if e.1 = p then some e.2 else findNode rest p

/-- Wellformedness of a filesystem: no path occurs twice. -/
def KeysNodup (fs : FS) : Prop := (fs.map Prod.fst).Nodup

/-- One normalization step of `path.resolve`: ".." pops a segment, "." is
dropped, any other segment is appended. -/
def normStep (acc : List String) (s : String) : List String :=
  if s = ".." then acc.dropLast else if s = "." then acc else acc ++ [s]

/-- Lexical normalization of an absolute segment list, as `path.resolve` does
(".." at the root is dropped, as on POSIX). -/
def normAbs (segs : List String) : Path :=
  segs.foldl normStep []

/-- Parent directory of a path (`path.dirname`). -/
def parent (p : Path) : Path := p.dropLast

/-- The semantics of `path.resolve(base, text)`: an absolute text is
normalized on its own, a relative text is appended to `base` and normalized. -/
def resolveAt (base : Path) (t : LinkText) : Path :=
  if t.isAbs then normAbs t.segs else normAbs (base ++ t.segs)

/-- Length of the common prefix of two segment lists. -/
def commonLen : List String → List String → Nat
  | a :: as, b :: bs => if a = b then commonLen as bs + 1 else 0
  | _, _ => 0

/-- The segments of `path.relative(base, dst)`: enough ".." to climb out of
the part of `base` beyond the common prefix, then the rest of `dst`. -/
def relSegs (base dst : Path) : List String :=
  let c := commonLen base dst
  List.replicate (base.length - c) ".." ++ dst.drop c

/-- A single path segment is well formed when it is nonempty, not a dot
segment, and contains no slash. -/
def goodSeg (s : String) : Bool :=
  s ≠ "" && s ≠ "." && s ≠ ".." && !(s.toList.contains '/')

/-- All segments of a path are well formed. -/
def goodPath (p : Path) : Bool := p.all goodSeg

/-- Splitting of a character list at slashes (an executable model of
`String.splitOn "/"`, kept kernel-reducible). -/
def splitSlashAux : List Char → List Char → List String
  | [], acc => [String.mk acc.reverse]
  | c :: cs, acc =>
    if c = '/' then String.mk acc.reverse :: splitSlashAux cs []
    else splitSlashAux cs (c :: acc)

/-- Splitting of a path string at slashes. -/
def splitSlash (s : String) : List String := splitSlashAux s.toList []

/-- Parsing of a relative path string into segments (`"a/b"` to `["a","b"]`);
empty fragments are dropped, as `path.join` normalizes them away. -/
def parseRel (s : String) : List String :=
  (splitSlash s).filter (fun x => x ≠ "")

/-- Rendering of relative segments back into a slash-joined string. -/
def render : List String → String
  | [] => ""
  | [s] => s
  | s :: rest => s ++ "/" ++ render rest

/-- Model of `lstatSync`: returns the node stored at the path, ENOENT when
absent, EACCES when the entry is inaccessible. -/
def lstatM (fs : FS) (p : Path) : Except String FsNode :=
  match findNode fs p with
  | none => .error "ENOENT"
  | some .inaccessible => .error "EACCES"
  | some n => .ok n

/-- Model of `readlinkSync`: the link text when the node is a symbolic link,
EINVAL otherwise. -/
def readlinkM (fs : FS) (p : Path) : Except String LinkText :=
  match lstatM fs p with
  | .error e => .error e
  | .ok (.symlink t) => .ok t
  | .ok _ => .error "EINVAL"

/-- Fuel-bounded resolution of a symlink chain, as the kernel's `stat` walk:
running out of fuel is the ELOOP failure on cyclic chains. -/
def followLinks (fs : FS) : Nat → Path → Except String Path
  | 0, _ => .error "ELOOP"
  | fuel + 1, p =>
    match lstatM fs p with
    | .error e => .error e
    | .ok (.symlink t) => followLinks fs fuel (resolveAt (parent p) t)
    | .ok _ => .ok p

/-- The kernel's maximum symlink-chain depth (Linux ELOOP limit). -/
def FUEL : Nat := 40

/-- Model of `existsSync`: follows symbolic links and maps every failure
(ENOENT, EACCES, ELOOP, ...) to `false` without raising. -/
def existsSyncB (fs : FS) (p : Path) : Bool :=
  (followLinks fs FUEL p).toOption.isSome

/-- Model of `unlinkSync`: removes the (first) entry stored at the path. -/
def unlinkSyncM : FS → Path → FS
  | [], _ => []
  | e :: rest, p => if e.1 = p then rest else e :: unlinkSyncM rest p

/-- Model of `symlinkSync(linkText, target)`: fails with EEXIST when any
entry (even a dangling link) is already present at the target path.  The
parent directory is assumed present (the sources always `mkdir` it first);
the file/dir flavor of the created link is not distinguished by the model. -/
def symlinkSyncM (fs : FS) (t : LinkText) (target : Path) : FS × Option String :=
  match findNode fs target with
  | some _ => (fs, some "EEXIST")
  | none => ((target, .symlink t) :: fs, none)

/-- Creation of one directory level, as one step of `mkdir(p, recursive)`:
"already a directory" is success, an existing non-directory is EEXIST unless
it is a symbolic link that resolves to a directory. -/
def mkdirOne (fs : FS) (q : Path) : FS × Option String :=
  match findNode fs q with
  | none => ((q, .dir) :: fs, none)
  | some .dir => (fs, none)
  | some .file => (fs, some "EEXIST")
  | some .inaccessible => (fs, some "EACCES")
  | some (.symlink _) =>
    match followLinks fs FUEL q with
    | .ok q' => if findNode fs q' = some .dir then (fs, none) else (fs, some "EEXIST")
    | .error e => (fs, some e)

/-- Every prefix of a path, shortest first, the full path included. -/
def prefixesOf (p : Path) : List Path :=
  (List.range (p.length + 1)).map (fun k => p.take k)

/-- Model of `mkdir(p, recursive: true)`: creates every missing level from
the root down, stopping at the first failure. -/
def mkdirRec (fs : FS) (p : Path) : FS × Option String :=
  (prefixesOf p).foldl
    (fun st q => match st with
      | (fs', some e) => (fs', some e)
      | (fs', none) => mkdirOne fs' q)
    (fs, none)

/-- The error value of `SymlinkManager`'s `FileSystemError`: message, path,
operation name, and underlying errno code. -/
structure FileSystemError where
  message : String
  path : Path
  operation : String
  code : Option String
deriving DecidableEq, Repr

/-- Embedding of `SymlinkManager.removeExisting`: unlinks a symbolic link,
refuses (EEXIST) to remove a regular file, silently ignores a directory or a
missing entry, and wraps any other `lstat` failure. -/
def removeExisting (fs : FS) (p : Path) : FS × Option FileSystemError :=
  match lstatM fs p with
  | .ok (.symlink _) => (unlinkSyncM fs p, none)
  | .ok .file =>
    (fs, some ⟨"Target path contains a regular file. Use --overwrite to replace it.",
      p, "removeExisting", some "EEXIST"⟩)
  | .ok _ => (fs, none)
  | .error e =>
    if e = "ENOENT" then (fs, none)
    else (fs, some ⟨"Failed to remove existing file", p, "removeExisting", some e⟩)

/-- Link addressing mode of the configuration. -/
inductive LinkMode where
  | relative : LinkMode
  | absolute : LinkMode
deriving DecidableEq, Repr

/-- The link text written for a given mode, target directory and source. -/
def mkLinkText (mode : LinkMode) (targetDir sourcePath : Path) : LinkText :=
  match mode with
  | .relative => ⟨false, relSegs targetDir sourcePath⟩
  | .absolute => ⟨true, sourcePath⟩

/-- Shared body of `SymlinkManager.createSymlink` and
`createDirectorySymlink` (the two TypeScript methods are line-for-line
duplicates differing only in the `symlinkSync` type flag and the operation
name in the wrapped error): ensure the target directory, compute the link
text, remove an existing entry, create the link; every failure inside is
wrapped as a `FileSystemError` with the given operation name and the
underlying code. -/
def createSymlinkCore (opName : String) (fs : FS) (sourcePath targetPath : Path)
    (linkMode : LinkMode) : FS × Option FileSystemError :=
  let targetDir := parent targetPath
  match mkdirRec fs targetDir with
  | (fs1, some e) =>
    (fs1, some ⟨"Failed to create symlink", targetPath, opName, some e⟩)
  | (fs1, none) =>
    let linkText := mkLinkText linkMode targetDir sourcePath
    let rem := if existsSyncB fs1 targetPath then removeExisting fs1 targetPath
               else (fs1, none)
    match rem with
    | (fs2, some fe) =>
      (fs2, some ⟨"Failed to create symlink", targetPath, opName,
        some (fe.code.getD "UNKNOWN")⟩)
    | (fs2, none) =>
      match symlinkSyncM fs2 linkText targetPath with
      | (fs3, some e) =>
        (fs3, some ⟨"Failed to create symlink", targetPath, opName, some e⟩)
      | (fs3, none) => (fs3, none)

/-- Embedding of `SymlinkManager.createSymlink`. -/
def createSymlink (fs : FS) (sourcePath targetPath : Path) (linkMode : LinkMode) :
    FS × Option FileSystemError :=
  createSymlinkCore "createSymlink" fs sourcePath targetPath linkMode

/-- Embedding of `SymlinkManager.createDirectorySymlink`. -/
def createDirectorySymlink (fs : FS) (sourcePath targetPath : Path) (linkMode : LinkMode) :
    FS × Option FileSystemError :=
  createSymlinkCore "createDirectorySymlink" fs sourcePath targetPath linkMode

/-- The `try` body of `SymlinkManager.isValidSymlink`, with every filesystem
failure surfaced in the `Except` layer. -/
def isValidSymlinkE (fs : FS) (p : Path) : Except String Bool := do
  if !(existsSyncB fs p) then return false
  let st ← lstatM fs p
  match st with
  | .symlink _ =>
    let t ← readlinkM fs p
    return existsSyncB fs (resolveAt (parent p) t)
  | _ => return false

/-- Embedding of `SymlinkManager.isValidSymlink`: the `catch` arm maps every
internal failure to `false`, so the predicate is a total boolean. -/
def isValidSymlink (fs : FS) (p : Path) : Bool :=
  match isValidSymlinkE fs p with
  | .ok b => b
  | .error _ => false

/-- The `try` body of `SymlinkManager.isSymlinkPointingTo`. -/
def isSymlinkPointingToE (fs : FS) (linkPath expectedTarget : Path) : Except String Bool := do
  if !(existsSyncB fs linkPath) then return false
  let st ← lstatM fs linkPath
  match st with
  | .symlink _ =>
    let t ← readlinkM fs linkPath
    return resolveAt (parent linkPath) t = normAbs expectedTarget
  | _ => return false

/-- Embedding of `SymlinkManager.isSymlinkPointingTo`: semantic comparison of
the resolved actual link target against the resolved expected target, with
every internal failure mapped to `false`. -/
def isSymlinkPointingTo (fs : FS) (linkPath expectedTarget : Path) : Bool :=
  match isSymlinkPointingToE fs linkPath expectedTarget with
  | .ok b => b
  | .error _ => false

/-- A discovered working tree (`WorktreeInfo`). -/
structure Worktree where
  path : Path
  branch : String
  head : String
  isMain : Bool
deriving DecidableEq, Repr

/-- Kind of a planned action. -/
inductive ActionKind where
  | create : ActionKind
  | update : ActionKind
  | skip : ActionKind
deriving DecidableEq, Repr

/-- A planned sync action (`SyncAction`). -/
structure SyncAction where
  targetWorktree : Path
  file : String
  sourcePath : Path
  targetPath : Path
  linkPath : LinkText
  action : ActionKind
  reason : String
  isDirectory : Bool
deriving DecidableEq, Repr

/-- Embedding of `SymlinkManager.createSyncAction`: classifies one
(target tree, file) pair.  The branch on the target's `lstat` is reached only
under `existsSync(targetPath)`, which follows links, so a dangling symbolic
link falls through to the final `create` branch. -/
def createSyncAction (fs : FS) (sourceWorktree targetWorktree : Worktree)
    (relativeFilePath : String) (linkMode : LinkMode) (overwrite : Bool) : SyncAction :=
  let sourcePath := sourceWorktree.path ++ parseRel relativeFilePath
  let targetPath := targetWorktree.path ++ parseRel relativeFilePath
  if !(existsSyncB fs sourcePath) then
    ⟨targetWorktree.path, relativeFilePath, sourcePath, targetPath, ⟨false, []⟩,
      .skip, "Source file does not exist", false⟩
  else
    let linkPath := mkLinkText linkMode (parent targetPath) sourcePath
    if existsSyncB fs targetPath then
      match findNode fs targetPath with
      | some (.symlink _) =>
        if isSymlinkPointingTo fs targetPath sourcePath then
          ⟨targetWorktree.path, relativeFilePath, sourcePath, targetPath, linkPath,
            .skip, "Symlink already exists and points to correct source", false⟩
        else
          ⟨targetWorktree.path, relativeFilePath, sourcePath, targetPath, linkPath,
            .update, "Symlink exists but points to different source", false⟩
      | some .dir =>
        if !overwrite then
          ⟨targetWorktree.path, relativeFilePath, sourcePath, targetPath, linkPath,
            .skip, "Target directory exists and overwrite is disabled", false⟩
        else
          ⟨targetWorktree.path, relativeFilePath, sourcePath, targetPath, linkPath,
            .update, "Overwriting existing directory", false⟩
      | _ =>
        if !overwrite then
          ⟨targetWorktree.path, relativeFilePath, sourcePath, targetPath, linkPath,
            .skip, "Target file exists and overwrite is disabled", false⟩
        else
          ⟨targetWorktree.path, relativeFilePath, sourcePath, targetPath, linkPath,
            .update, "Overwriting existing file", false⟩
    else
      ⟨targetWorktree.path, relativeFilePath, sourcePath, targetPath, linkPath,
        .create, "Creating new symlink", false⟩

/-- Embedding of `SymlinkManager.executeAction`: a skip is a no-op; an update
first handles the pre-existing entry under the overwrite policy; then the
link is (re)created, the mode recovered from the action's link text exactly as
the source recovers it from `resolve(linkPath) === linkPath`. -/
def executeAction (fs : FS) (a : SyncAction) (overwrite : Bool) :
    FS × Option FileSystemError :=
  if a.action = .skip then (fs, none)
  else
    let step1 : FS × Option FileSystemError :=
      if a.action = .update ∧ existsSyncB fs a.targetPath then
        if overwrite then removeExisting fs a.targetPath
        else (fs, some ⟨"Target exists and overwrite is disabled",
          a.targetPath, "executeAction", some "EEXIST"⟩)
      else (fs, none)
    match step1 with
    | (fs1, some e) => (fs1, some e)
    | (fs1, none) =>
      let mode := if a.linkPath.isAbs then LinkMode.absolute else LinkMode.relative
      if a.isDirectory then createDirectorySymlink fs1 a.sourcePath a.targetPath mode
      else createSymlink fs1 a.sourcePath a.targetPath mode

/-- Status triple produced by `validateSymlinks`. -/
structure LinkStatus where
  valid : List String
  broken : List String
  missing : List String
deriving DecidableEq, Repr

/-- Embedding of `SymlinkManager.validateSymlinks` (the lstat-based version):
a symbolic link is valid or broken according to `isValidSymlink`; any other
existing entry is valid; an ENOENT lstat is missing; any other lstat failure
classifies the file into no list at all. -/
def validateSymlinks (fs : FS) (worktree : Worktree) : List String → LinkStatus
  | [] => ⟨[], [], []⟩
  | f :: rest =>
    let r := validateSymlinks fs worktree rest
    let p := worktree.path ++ parseRel f
    match lstatM fs p with
    | .ok (.symlink _) =>
      if isValidSymlink fs p then { r with valid := f :: r.valid }
      else { r with broken := f :: r.broken }
    | .ok _ => { r with valid := f :: r.valid }
    | .error e => if e = "ENOENT" then { r with missing := f :: r.missing } else r

/-- Fuel-driven glob match of one pattern segment against one path segment:
literal characters, "?" for one character, "*" for any run of characters
(never crossing a slash, since matching is per segment).  Character classes
and brace expansion are not used by this codebase and are not modelled.  The
fuel only makes the recursion structural; every recursive call shrinks
pattern plus text, so the wrapper below always supplies enough. -/
def matchSegF : Nat → List Char → List Char → Bool
  | 0, _, _ => false
  | n + 1, pat, txt =>
    match pat, txt with
    | [], [] => true
    | '*' :: ps, t =>
      matchSegF n ps t || (match t with | [] => false | _ :: ts => matchSegF n ('*' :: ps) ts)
    | '?' :: ps, _ :: ts => matchSegF n ps ts
    | p :: ps, c :: ts => p = c && matchSegF n ps ts
    | _, _ => false

/-- Glob match of one pattern segment against one path segment. -/
def matchSeg (pat txt : List Char) : Bool :=
  matchSegF (pat.length + txt.length + 1) pat txt

/-- Fuel-driven glob match over slash-split segments, with "**" matching any
(possibly empty) run of directory segments. -/
def matchSegsF : Nat → List String → List String → Bool
  | 0, _, _ => false
  | n + 1, pat, txt =>
    match pat, txt with
    | [], [] => true
    | "**" :: ps, ts =>
      matchSegsF n ps ts ||
        (match ts with | [] => false | _ :: ts' => matchSegsF n ("**" :: ps) ts')
    | p :: ps, t :: ts => matchSeg p.toList t.toList && matchSegsF n ps ts
    | _, _ => false

/-- Glob match over slash-split segments. -/
def matchSegs (pat txt : List String) : Bool :=
  matchSegsF (pat.length + txt.length + 1) pat txt

/-- Whole-path glob match of a pattern string against a relative file path;
dotfiles match normally, mirroring the `dot: true` glob option the planner
passes (minimatch's default dotfile opt-out is not modelled). -/
def globMatch (pattern file : String) : Bool :=
  matchSegs (parseRel pattern) (parseRel file)

/-- Model of `minimatch(file, pattern)` as used for the ignore list. -/
def minimatchB (file pattern : String) : Bool := globMatch pattern file

/-- The relative paths of all plain-file leaves strictly under a root: the
universe that `glob(pattern, { cwd, nodir: true, dot: true })` draws from. -/
def filesUnder (fs : FS) (root : Path) : List String :=
  fs.filterMap (fun e =>
    if e.2 = FsNode.file ∧ root <+: e.1 ∧ root.length < e.1.length
    then some (render (e.1.drop root.length)) else none)

/-- Model of one `glob(pattern, { cwd: sourceWorktree.path, nodir, dot })`
call: every file leaf under the root that the pattern matches. -/
def globM (fs : FS) (root : Path) (pattern : String) : List String :=
  (filesUnder fs root).filter (fun f => globMatch pattern f)

/-- First-occurrence deduplication, as `[...new Set(allFiles)]`. -/
def dedupFirst (l : List String) : List String :=
  l.foldl (fun acc x => if x ∈ acc then acc else acc ++ [x]) []

/-- Lexicographic comparison of character lists by code point. -/
def lexLe : List Char → List Char → Bool
  | [], _ => true
  | _ :: _, [] => false
  | a :: as, b :: bs =>
    if a.toNat < b.toNat then true
    else if b.toNat < a.toNat then false
    else lexLe as bs

/-- Lexicographic order on strings (the order `Array.prototype.sort()` uses
on strings), kept kernel-reducible. -/
def strLe (a b : String) : Bool := lexLe a.toList b.toList

/-- Lexicographic string sort, as `Array.prototype.sort()` on strings. -/
def sortStrings (l : List String) : List String :=
  l.insertionSort (fun a b => strLe a b = true)

/-- Embedding of `SyncPlanner.resolveFilePatterns`: expand every inclusion
pattern, deduplicate, drop everything matching any ignore pattern, sort. -/
def resolveFilePatterns (fs : FS) (sourceWorktree : Worktree)
    (patterns ignorePatterns : List String) : List String :=
  let allFiles := patterns.flatMap (fun pat => globM fs sourceWorktree.path pat)
  let uniqueFiles := dedupFirst allFiles
  let filteredFiles := uniqueFiles.filter
    (fun file => !(ignorePatterns.any (fun ig => minimatchB file ig)))
  sortStrings filteredFiles

/-- The reserved configuration file name that is always synced. -/
def CONFIG_FILE_NAME : String := ".worktreesync.json"

/-- Embedding of `SyncPlanner.ensureConfigFileIncluded`. -/
def ensureConfigFileIncluded (files : List String) : List String :=
  if CONFIG_FILE_NAME ∈ files then files else CONFIG_FILE_NAME :: files

/-- A computed plan (`SyncPlan`). -/
structure SyncPlan where
  sourceWorktree : Worktree
  targetWorktrees : List Worktree
  syncActions : List SyncAction
deriving DecidableEq, Repr

/-- Embedding of `SyncPlanner.createSyncPlan`.  Worktree discovery is an
external `git` call, so the discovered source and target trees are parameters
here (`getSourceWorktree` / `getTargetWorktrees` are modelled separately);
the selective-sync narrowing of targets and patterns is not modelled — the
parameters are the lists the planner ends up iterating. -/
def createSyncPlan (fs : FS) (sourceWorktree : Worktree) (targetWorktrees : List Worktree)
    (sharedFiles ignorePatterns : List String) (linkMode : LinkMode) (overwrite : Bool) :
    SyncPlan :=
  let filesToSync := resolveFilePatterns fs sourceWorktree sharedFiles ignorePatterns
  let finalFiles := ensureConfigFileIncluded filesToSync
  let syncActions := targetWorktrees.flatMap (fun t =>
    finalFiles.map (fun f => createSyncAction fs sourceWorktree t f linkMode overwrite))
  ⟨sourceWorktree, targetWorktrees, syncActions⟩

/-- Embedding of `WorktreeManager.validateWorktreeAccess`. -/
def validateWorktreeAccess (fs : FS) (worktree : Worktree) : Bool :=
  existsSyncB fs worktree.path

/-- Validation outcome of a plan. -/
structure PlanValidation where
  valid : Bool
  errors : List String
  warnings : List String
deriving DecidableEq, Repr

/-- Embedding of `SyncPlanner.validatePlan`: an inaccessible source tree is
an error, an inaccessible target tree only a warning; the informational
per-reason skip-count warning lines are not modelled (they never affect
`valid`), the update-count warning is kept. -/
def validatePlan (fs : FS) (plan : SyncPlan) : PlanValidation :=
  let errors := if validateWorktreeAccess fs plan.sourceWorktree then []
    else ["Source worktree is not accessible"]
  let accessWarnings := plan.targetWorktrees.filterMap (fun t =>
    if validateWorktreeAccess fs t then none else some "Target worktree is not accessible")
  let updateActions := plan.syncActions.filter (fun a => a.action = ActionKind.update)
  let updateWarnings := if updateActions.length > 0
    then ["existing file(s)/link(s) will be updated"] else []
  ⟨errors.isEmpty, errors, accessWarnings ++ updateWarnings⟩

/-- An itemized per-action error of a run (`SyncError`). -/
structure SyncError where
  file : String
  worktree : Path
  error : String
  code : Option String
deriving DecidableEq, Repr

/-- Aggregated result of a run (`SyncResult`). -/
structure SyncResult where
  success : Bool
  created : Nat
  updated : Nat
  skipped : Nat
  errors : List SyncError
deriving DecidableEq, Repr

/-- Embedding of `SyncEngine.updateResultCounts`. -/
def updateResultCounts (k : ActionKind) (r : SyncResult) : SyncResult :=
  match k with
  | .create => { r with created := r.created + 1 }
  | .update => { r with updated := r.updated + 1 }
  | .skip => { r with skipped := r.skipped + 1 }

/-- Embedding of `SyncEngine.executePlan`: every action is attempted in
order; a failure appends one itemized error and never stops the loop. -/
def executePlan (overwrite dryRun : Bool) : FS → List SyncAction → SyncResult → FS × SyncResult
  | fs, [], r => (fs, r)
  | fs, a :: rest, r =>
    if dryRun then executePlan overwrite dryRun fs rest (updateResultCounts a.action r)
    else
      match executeAction fs a overwrite with
      | (fs1, none) => executePlan overwrite dryRun fs1 rest (updateResultCounts a.action r)
      | (fs1, some e) =>
        executePlan overwrite dryRun fs1 rest
          { r with errors := r.errors ++ [⟨a.file, a.targetWorktree, e.message, e.code⟩] }

/-- Embedding of `SyncEngine.sync` (the pre/post shell hooks are opaque
external commands and are not modelled): plan, validate — an invalid plan
aborts with `VALIDATION_ERROR` entries before any mutation — then execute,
and a run is successful exactly when its error list is empty. -/
def sync (fs : FS) (sourceWorktree : Worktree) (targetWorktrees : List Worktree)
    (sharedFiles ignorePatterns : List String) (linkMode : LinkMode)
    (overwrite dryRun : Bool) : FS × SyncResult :=
  let plan := createSyncPlan fs sourceWorktree targetWorktrees sharedFiles ignorePatterns
    linkMode overwrite
  let validation := validatePlan fs plan
  if !validation.valid then
    (fs, ⟨false, 0, 0, 0,
      validation.errors.map (fun e => ⟨"", [], e, some "VALIDATION_ERROR"⟩)⟩)
  else
    let st := executePlan overwrite dryRun fs plan.syncActions ⟨false, 0, 0, 0, []⟩
    (st.1, { st.2 with success := st.2.errors.isEmpty })

/-- Whether a selector string is an absolute path (`path.isAbsolute`). -/
def isAbsoluteStr (s : String) : Bool :=
  match s.toList with
  | c :: _ => c = '/'
  | [] => false

/-- Whether a selector string starts with a dot. -/
def startsWithDot (s : String) : Bool :=
  match s.toList with
  | c :: _ => c = '.'
  | [] => false

/-- Parse of an absolute path string into a normalized segment path. -/
def parsePathStr (s : String) : Path :=
  normAbs ((splitSlash s).filter (fun x => x ≠ ""))

/-- The semantics of `path.resolve(base, s)` for a selector string. -/
def resolveStrFrom (base : Path) (s : String) : Path :=
  if isAbsoluteStr s then parsePathStr s
  else normAbs (base ++ (splitSlash s).filter (fun x => x ≠ ""))

/-- Final path segment, as `path.basename`. -/
def basenameOf (p : Path) : String := p.getLastD ""

/-- Embedding of `WorktreeManager.getSourceWorktree` over an already
discovered worktree list: match by branch name, then by absolute path, then
by path resolved against the repository root and against its parent, then by
directory basename; when nothing matches, fall back to the main worktree; the
"not found" error is raised only when even that fallback finds nothing. -/
def getSourceWorktree (worktrees : List Worktree) (repositoryRoot : Path)
    (sourceWorktreeName : String) : Except String Worktree :=
  let step1 := worktrees.find? (fun wt => wt.branch = sourceWorktreeName)
  let step2 := match step1 with
    | some wt => some wt
    | none =>
      if isAbsoluteStr sourceWorktreeName then
        worktrees.find? (fun wt => wt.path = parsePathStr sourceWorktreeName)
      else none
  let step3 := match step2 with
    | some wt => some wt
    | none =>
      if sourceWorktreeName.toList.contains '/' || startsWithDot sourceWorktreeName then
        match worktrees.find?
          (fun wt => wt.path = resolveStrFrom repositoryRoot sourceWorktreeName) with
        | some wt => some wt
        | none =>
          worktrees.find?
            (fun wt => wt.path = resolveStrFrom (parent repositoryRoot) sourceWorktreeName)
      else none
  let step4 := match step3 with
    | some wt => some wt
    | none => worktrees.find? (fun wt => basenameOf wt.path = sourceWorktreeName)
  let step5 := match step4 with
    | some wt => some wt
    | none => worktrees.find? (fun wt => wt.isMain)
  match step5 with
  | some wt => .ok wt
  | none => .error "Source worktree not found"

/-- Embedding of `WorktreeManager.getTargetWorktrees`: every discovered tree
except the source. -/
def getTargetWorktrees (worktrees : List Worktree) (sourceWorktree : Worktree) :
    List Worktree :=
  worktrees.filter (fun wt => wt.path ≠ sourceWorktree.path)

/-! Basic lemmas about the filesystem primitives. -/

theorem fuel_eq : FUEL = 39 + 1 := rfl

theorem followLinks_succ (fs : FS) (n : Nat) (p : Path) :
    followLinks fs (n + 1) p =
      match lstatM fs p with
      | .error e => .error e
      | .ok (.symlink t) => followLinks fs n (resolveAt (parent p) t)
      | .ok _ => .ok p := rfl

theorem followLinks_ok_of_file {fs : FS} {p : Path} (n : Nat)
    (h : findNode fs p = some .file) : followLinks fs (n + 1) p = .ok p := by
  rw [followLinks_succ]
  simp [lstatM, h]

theorem followLinks_ok_of_dir {fs : FS} {p : Path} (n : Nat)
    (h : findNode fs p = some .dir) : followLinks fs (n + 1) p = .ok p := by
  rw [followLinks_succ]
  simp [lstatM, h]

theorem followLinks_err_of_none {fs : FS} {p : Path} (n : Nat)
    (h : findNode fs p = none) : followLinks fs (n + 1) p = .error "ENOENT" := by
  rw [followLinks_succ]
  simp [lstatM, h]

theorem followLinks_err_of_inacc {fs : FS} {p : Path} (n : Nat)
    (h : findNode fs p = some .inaccessible) :
    followLinks fs (n + 1) p = .error "EACCES" := by
  rw [followLinks_succ]
  simp [lstatM, h]

theorem followLinks_link {fs : FS} {p : Path} {t : LinkText} (n : Nat)
    (h : findNode fs p = some (.symlink t)) :
    followLinks fs (n + 1) p = followLinks fs n (resolveAt (parent p) t) := by
  rw [followLinks_succ]
  simp [lstatM, h]

theorem existsSyncB_of_file {fs : FS} {p : Path}
    (h : findNode fs p = some .file) : existsSyncB fs p = true := by
  rw [existsSyncB, fuel_eq, followLinks_ok_of_file 39 h]
  rfl

theorem existsSyncB_of_dir {fs : FS} {p : Path}
    (h : findNode fs p = some .dir) : existsSyncB fs p = true := by
  rw [existsSyncB, fuel_eq, followLinks_ok_of_dir 39 h]
  rfl

theorem existsSyncB_of_none {fs : FS} {p : Path}
    (h : findNode fs p = none) : existsSyncB fs p = false := by
  rw [existsSyncB, fuel_eq, followLinks_err_of_none 39 h]
  rfl

theorem existsSyncB_of_inacc {fs : FS} {p : Path}
    (h : findNode fs p = some .inaccessible) : existsSyncB fs p = false := by
  rw [existsSyncB, fuel_eq, followLinks_err_of_inacc 39 h]
  rfl

theorem existsSyncB_link_step {fs : FS} {p : Path} {t : LinkText}
    (h : findNode fs p = some (.symlink t)) :
    existsSyncB fs p = (followLinks fs 39 (resolveAt (parent p) t)).toOption.isSome := by
  rw [existsSyncB, fuel_eq, followLinks_link 39 h]

theorem existsSyncB_link_file {fs : FS} {p : Path} {t : LinkText}
    (h : findNode fs p = some (.symlink t))
    (h2 : findNode fs (resolveAt (parent p) t) = some .file) :
    existsSyncB fs p = true := by
  rw [existsSyncB_link_step h]
  rw [show (39 : Nat) = 38 + 1 from rfl, followLinks_ok_of_file 38 h2]
  rfl

theorem existsSyncB_true_elim {fs : FS} {p : Path}
    (h : existsSyncB fs p = true) :
    ∃ n, findNode fs p = some n ∧ n ≠ .inaccessible := by
  cases hf : findNode fs p with
  | none => rw [existsSyncB_of_none hf] at h; exact absurd h (by simp)
  | some n =>
    cases n with
    | inaccessible => rw [existsSyncB_of_inacc hf] at h; exact absurd h (by simp)
    | file => exact ⟨.file, rfl, by simp⟩
    | dir => exact ⟨.dir, rfl, by simp⟩
    | symlink t => exact ⟨.symlink t, rfl, by simp⟩

/-! Claim C3: an `update` executed without overwrite permission against an
existing plain entry fails with a filesystem-conflict error and leaves the
filesystem untouched. -/

/-- C3: executing an update action with overwrite disabled while a plain
(non-symbolic) entry sits at the target path returns the EEXIST
filesystem-conflict error carrying the path, the operation name and the
underlying code, and returns the filesystem unchanged — nothing is unlinked
or replaced. -/
theorem executeAction_update_noOverwrite_conflict (fs : FS) (a : SyncAction)
    (hupd : a.action = .update)
    (hplain : findNode fs a.targetPath = some .file ∨ findNode fs a.targetPath = some .dir) :
    executeAction fs a false =
      (fs, some ⟨"Target exists and overwrite is disabled",
        a.targetPath, "executeAction", some "EEXIST"⟩) := by
  have hex : existsSyncB fs a.targetPath = true := by
    cases hplain with
    | inl h => exact existsSyncB_of_file h
    | inr h => exact existsSyncB_of_dir h
  rw [executeAction, hupd]
  simp [hex]

/-- Witness for C3 at a concrete input: a plain file at the target path of an
update action executed without overwrite. -/
theorem executeAction_update_noOverwrite_conflict_witness :
    (⟨["t"], "f", ["s", "f"], ["t", "f"], ⟨false, ["..", "s", "f"]⟩,
        .update, "r", false⟩ : SyncAction).action = .update ∧
    findNode [((["t", "f"] : Path), FsNode.file)] ["t", "f"] = some .file ∧
    executeAction [((["t", "f"] : Path), FsNode.file)]
        ⟨["t"], "f", ["s", "f"], ["t", "f"], ⟨false, ["..", "s", "f"]⟩, .update, "r", false⟩
        false =
      ([((["t", "f"] : Path), FsNode.file)],
        some ⟨"Target exists and overwrite is disabled", ["t", "f"],
          "executeAction", some "EEXIST"⟩) :=
  ⟨rfl, rfl,
    executeAction_update_noOverwrite_conflict _ _ rfl (Or.inl rfl)⟩

/-! Characterizations of the two link-state predicates. -/

theorem isValidSymlink_eq (fs : FS) (p : Path) :
    isValidSymlink fs p =
      (match findNode fs p with
       | some (.symlink t) => existsSyncB fs p && existsSyncB fs (resolveAt (parent p) t)
       | _ => false) := by
  cases hf : findNode fs p with
  | none =>
    have hex := existsSyncB_of_none hf
    simp [isValidSymlink, isValidSymlinkE, hex, pure, Except.pure]
  | some n =>
    cases n with
    | inaccessible =>
      have hex := existsSyncB_of_inacc hf
      simp [isValidSymlink, isValidSymlinkE, hex, pure, Except.pure]
    | file =>
      by_cases hex : existsSyncB fs p <;>
        simp [isValidSymlink, isValidSymlinkE, hex, lstatM, hf, Bind.bind, Except.bind,
          pure, Except.pure]
    | dir =>
      by_cases hex : existsSyncB fs p <;>
        simp [isValidSymlink, isValidSymlinkE, hex, lstatM, hf, Bind.bind, Except.bind,
          pure, Except.pure]
    | symlink t =>
      by_cases hex : existsSyncB fs p <;>
        simp [isValidSymlink, isValidSymlinkE, readlinkM, hex, lstatM, hf,
          Bind.bind, Except.bind, pure, Except.pure]

theorem isSymlinkPointingTo_eq (fs : FS) (p q : Path) :
    isSymlinkPointingTo fs p q =
      (match findNode fs p with
       | some (.symlink t) => existsSyncB fs p && decide (resolveAt (parent p) t = normAbs q)
       | _ => false) := by
  cases hf : findNode fs p with
  | none =>
    have hex := existsSyncB_of_none hf
    simp [isSymlinkPointingTo, isSymlinkPointingToE, hex, pure, Except.pure]
  | some n =>
    cases n with
    | inaccessible =>
      have hex := existsSyncB_of_inacc hf
      simp [isSymlinkPointingTo, isSymlinkPointingToE, hex, pure, Except.pure]
    | file =>
      by_cases hex : existsSyncB fs p <;>
        simp [isSymlinkPointingTo, isSymlinkPointingToE, hex, lstatM, hf,
          Bind.bind, Except.bind, pure, Except.pure]
    | dir =>
      by_cases hex : existsSyncB fs p <;>
        simp [isSymlinkPointingTo, isSymlinkPointingToE, hex, lstatM, hf,
          Bind.bind, Except.bind, pure, Except.pure]
    | symlink t =>
      by_cases hex : existsSyncB fs p <;>
        simp [isSymlinkPointingTo, isSymlinkPointingToE, readlinkM, hex, lstatM, hf,
          Bind.bind, Except.bind, pure, Except.pure]

/-- C7: the two link-state predicates are total booleans whose every internal
filesystem failure is mapped to `false` by the catch arm, and `isValidSymlink`
answers `true` only when the path exists, holds a symbolic reference, and the
reference's resolved target exists; `isSymlinkPointingTo` answers `true` only
when the path holds a symbolic reference whose resolved text equals the
resolved expected target. -/
theorem linkPredicates_total_and_sound :
    (∀ fs p, isValidSymlink fs p = true →
      existsSyncB fs p = true ∧
        ∃ t, findNode fs p = some (.symlink t) ∧
          existsSyncB fs (resolveAt (parent p) t) = true) ∧
    (∀ fs p e, isValidSymlinkE fs p = .error e → isValidSymlink fs p = false) ∧
    (∀ fs p q, isSymlinkPointingTo fs p q = true →
      existsSyncB fs p = true ∧
        ∃ t, findNode fs p = some (.symlink t) ∧ resolveAt (parent p) t = normAbs q) ∧
    (∀ fs p q e, isSymlinkPointingToE fs p q = .error e →
      isSymlinkPointingTo fs p q = false) := by
  refine ⟨fun fs p h => ?_, fun fs p e h => ?_, fun fs p q h => ?_, fun fs p q e h => ?_⟩
  · rw [isValidSymlink_eq] at h
    cases hf : findNode fs p with
    | none => rw [hf] at h; simp at h
    | some n =>
      cases n with
      | symlink t =>
        rw [hf] at h
        simp only [Bool.and_eq_true] at h
        exact ⟨h.1, t, rfl, h.2⟩
      | file => rw [hf] at h; simp at h
      | dir => rw [hf] at h; simp at h
      | inaccessible => rw [hf] at h; simp at h
  · simp [isValidSymlink, h]
  · rw [isSymlinkPointingTo_eq] at h
    cases hf : findNode fs p with
    | none => rw [hf] at h; simp at h
    | some n =>
      cases n with
      | symlink t =>
        rw [hf] at h
        simp only [Bool.and_eq_true, decide_eq_true_eq] at h
        exact ⟨h.1, t, rfl, h.2⟩
      | file => rw [hf] at h; simp at h
      | dir => rw [hf] at h; simp at h
      | inaccessible => rw [hf] at h; simp at h
  · simp [isSymlinkPointingTo, h]

/-- Witness for C7 at a concrete input: a link to an existing file is
recognized as valid, and the soundness conclusion holds of it. -/
theorem linkPredicates_total_and_sound_witness :
    isValidSymlink
        [((["s", "f"] : Path), FsNode.file),
         ((["t", "f"] : Path), FsNode.symlink ⟨false, ["..", "s", "f"]⟩)]
        ["t", "f"] = true ∧
    (existsSyncB
        [((["s", "f"] : Path), FsNode.file),
         ((["t", "f"] : Path), FsNode.symlink ⟨false, ["..", "s", "f"]⟩)]
        ["t", "f"] = true ∧
      ∃ t, findNode
          [((["s", "f"] : Path), FsNode.file),
           ((["t", "f"] : Path), FsNode.symlink ⟨false, ["..", "s", "f"]⟩)]
          ["t", "f"] = some (.symlink t) ∧
        existsSyncB
          [((["s", "f"] : Path), FsNode.file),
           ((["t", "f"] : Path), FsNode.symlink ⟨false, ["..", "s", "f"]⟩)]
          (resolveAt (parent ["t", "f"]) t) = true) :=
  ⟨by decide, linkPredicates_total_and_sound.1 _ _ (by decide)⟩

/-! Classification helpers for `validateSymlinks`. -/

/-- The bucket a checked file lands in. -/
inductive FileClass where
  | valid : FileClass
  | broken : FileClass
  | missing : FileClass
deriving DecidableEq, Repr

/-- The bucket one checked file would be classified into, `none` when the
loop body classifies it into no list (a non-ENOENT `lstat` failure). -/
def classifyF (fs : FS) (wt : Worktree) (f : String) : Option FileClass :=
  match lstatM fs (wt.path ++ parseRel f) with
  | .ok (.symlink _) =>
    if isValidSymlink fs (wt.path ++ parseRel f) then some .valid else some .broken
  | .ok _ => some .valid
  | .error e => if e = "ENOENT" then some .missing else none

theorem validateSymlinks_cons (fs : FS) (wt : Worktree) (g : String)
    (rest : List String) :
    validateSymlinks fs wt (g :: rest) =
      (let r := validateSymlinks fs wt rest
       match classifyF fs wt g with
       | some .valid => { r with valid := g :: r.valid }
       | some .broken => { r with broken := g :: r.broken }
       | some .missing => { r with missing := g :: r.missing }
       | none => r) := by
  show (match lstatM fs (wt.path ++ parseRel g) with
    | .ok (.symlink _) =>
      if isValidSymlink fs (wt.path ++ parseRel g) then
        { validateSymlinks fs wt rest with valid := g :: (validateSymlinks fs wt rest).valid }
      else
        { validateSymlinks fs wt rest with broken := g :: (validateSymlinks fs wt rest).broken }
    | .ok _ =>
      { validateSymlinks fs wt rest with valid := g :: (validateSymlinks fs wt rest).valid }
    | .error e =>
      if e = "ENOENT" then
        { validateSymlinks fs wt rest with missing := g :: (validateSymlinks fs wt rest).missing }
      else validateSymlinks fs wt rest) = _
  cases hl : lstatM fs (wt.path ++ parseRel g) with
  | ok n =>
    cases n with
    | file => simp only [classifyF, hl]
    | dir => simp only [classifyF, hl]
    | inaccessible => simp only [classifyF, hl]
    | symlink t =>
      simp only [classifyF, hl]
      by_cases hv : isValidSymlink fs (wt.path ++ parseRel g) <;> simp [hv]
  | error e =>
    by_cases he : e = "ENOENT" <;> simp [classifyF, hl, he]

theorem mem_validateSymlinks (fs : FS) (wt : Worktree) (files : List String)
    (f : String) :
    (f ∈ (validateSymlinks fs wt files).valid ↔
        f ∈ files ∧ classifyF fs wt f = some .valid) ∧
    (f ∈ (validateSymlinks fs wt files).broken ↔
        f ∈ files ∧ classifyF fs wt f = some .broken) ∧
    (f ∈ (validateSymlinks fs wt files).missing ↔
        f ∈ files ∧ classifyF fs wt f = some .missing) := by
  induction files with
  | nil => simp [validateSymlinks]
  | cons g rest ih =>
    rw [validateSymlinks_cons]
    by_cases hfg : f = g
    · subst hfg
      cases hc : classifyF fs wt f with
      | none => simp [hc, ih.1, ih.2.1, ih.2.2]
      | some c => cases c <;> simp [hc, ih.1, ih.2.1, ih.2.2]
    · cases hc : classifyF fs wt g with
      | none => simp [hc, ih.1, ih.2.1, ih.2.2, hfg]
      | some c => cases c <;> simp [hc, ih.1, ih.2.1, ih.2.2, hfg]

/-- C10: a checked file whose target path holds an existing plain entry (a
regular file or a directory, not a symbolic link) is reported valid by status
classification, and never broken or missing. -/
theorem validateSymlinks_plain_valid (fs : FS) (wt : Worktree) (files : List String)
    (f : String) (hf : f ∈ files)
    (hplain : findNode fs (wt.path ++ parseRel f) = some .file ∨
      findNode fs (wt.path ++ parseRel f) = some .dir) :
    f ∈ (validateSymlinks fs wt files).valid ∧
    f ∉ (validateSymlinks fs wt files).broken ∧
    f ∉ (validateSymlinks fs wt files).missing := by
  have hc : classifyF fs wt f = some .valid := by
    cases hplain with
    | inl h => simp [classifyF, lstatM, h]
    | inr h => simp [classifyF, lstatM, h]
  obtain ⟨h1, h2, h3⟩ := mem_validateSymlinks fs wt files f
  refine ⟨h1.mpr ⟨hf, hc⟩, fun hm => ?_, fun hm => ?_⟩
  · have := (h2.mp hm).2
    rw [hc] at this
    exact absurd this (by simp)
  · have := (h3.mp hm).2
    rw [hc] at this
    exact absurd this (by simp)

/-- Witness for C10 at a concrete input: a plain file at the target path. -/
theorem validateSymlinks_plain_valid_witness :
    ("f" ∈ (["f"] : List String)) ∧
    findNode [((["t", "f"] : Path), FsNode.file)] ((["t"] : Path) ++ parseRel "f") =
      some .file ∧
    ("f" ∈ (validateSymlinks [((["t", "f"] : Path), FsNode.file)]
        ⟨["t"], "b", "h", false⟩ ["f"]).valid ∧
      "f" ∉ (validateSymlinks [((["t", "f"] : Path), FsNode.file)]
        ⟨["t"], "b", "h", false⟩ ["f"]).broken ∧
      "f" ∉ (validateSymlinks [((["t", "f"] : Path), FsNode.file)]
        ⟨["t"], "b", "h", false⟩ ["f"]).missing) :=
  ⟨by decide, by decide,
    validateSymlinks_plain_valid _ _ _ _ (by decide) (Or.inl (by decide))⟩

/-- Counterexample to C5 as frozen: a checked file whose `lstat` fails with a
non-ENOENT error (here a permission-denied entry) is classified into none of
the three lists, so the classification is not always into exactly one. -/
theorem validateSymlinks_unclassified_cex :
    ("f" ∈ (["f"] : List String)) ∧
    "f" ∉ (validateSymlinks [((["t", "f"] : Path), FsNode.inaccessible)]
        ⟨["t"], "b", "h", false⟩ ["f"]).valid ∧
    "f" ∉ (validateSymlinks [((["t", "f"] : Path), FsNode.inaccessible)]
        ⟨["t"], "b", "h", false⟩ ["f"]).broken ∧
    "f" ∉ (validateSymlinks [((["t", "f"] : Path), FsNode.inaccessible)]
        ⟨["t"], "b", "h", false⟩ ["f"]).missing := by
  decide

/-- C5 (amended): the three status lists are pairwise disjoint; every checked
file whose `lstat` succeeds or fails with ENOENT lands in exactly one of
them (a file whose `lstat` fails otherwise lands in none); and a path holding
a symbolic reference whose resolution fails is reported broken, not missing
and not valid. -/
theorem validateSymlinks_classification (fs : FS) (wt : Worktree)
    (files : List String) (f : String) (hf : f ∈ files) :
    ((f ∈ (validateSymlinks fs wt files).valid →
        f ∉ (validateSymlinks fs wt files).broken ∧
        f ∉ (validateSymlinks fs wt files).missing) ∧
      (f ∈ (validateSymlinks fs wt files).broken →
        f ∉ (validateSymlinks fs wt files).valid ∧
        f ∉ (validateSymlinks fs wt files).missing) ∧
      (f ∈ (validateSymlinks fs wt files).missing →
        f ∉ (validateSymlinks fs wt files).valid ∧
        f ∉ (validateSymlinks fs wt files).broken)) ∧
    (findNode fs (wt.path ++ parseRel f) ≠ some FsNode.inaccessible →
      f ∈ (validateSymlinks fs wt files).valid ∨
      f ∈ (validateSymlinks fs wt files).broken ∨
      f ∈ (validateSymlinks fs wt files).missing) ∧
    (∀ t, findNode fs (wt.path ++ parseRel f) = some (FsNode.symlink t) →
      isValidSymlink fs (wt.path ++ parseRel f) = false →
      f ∈ (validateSymlinks fs wt files).broken ∧
      f ∉ (validateSymlinks fs wt files).valid ∧
      f ∉ (validateSymlinks fs wt files).missing) := by
  obtain ⟨h1, h2, h3⟩ := mem_validateSymlinks fs wt files f
  refine ⟨⟨fun hv => ?_, fun hb => ?_, fun hm => ?_⟩, fun hacc => ?_, fun t ht hbad => ?_⟩
  · have hcv := (h1.mp hv).2
    exact ⟨fun hb => by have := (h2.mp hb).2; rw [hcv] at this; simp at this,
      fun hm => by have := (h3.mp hm).2; rw [hcv] at this; simp at this⟩
  · have hcb := (h2.mp hb).2
    exact ⟨fun hv => by have := (h1.mp hv).2; rw [hcb] at this; simp at this,
      fun hm => by have := (h3.mp hm).2; rw [hcb] at this; simp at this⟩
  · have hcm := (h3.mp hm).2
    exact ⟨fun hv => by have := (h1.mp hv).2; rw [hcm] at this; simp at this,
      fun hb => by have := (h2.mp hb).2; rw [hcm] at this; simp at this⟩
  · cases hfind : findNode fs (wt.path ++ parseRel f) with
    | none =>
      exact Or.inr (Or.inr (h3.mpr ⟨hf, by simp [classifyF, lstatM, hfind]⟩))
    | some n =>
      cases n with
      | file => exact Or.inl (h1.mpr ⟨hf, by simp [classifyF, lstatM, hfind]⟩)
      | dir => exact Or.inl (h1.mpr ⟨hf, by simp [classifyF, lstatM, hfind]⟩)
      | inaccessible => exact absurd hfind hacc
      | symlink t =>
        by_cases hv : isValidSymlink fs (wt.path ++ parseRel f)
        · exact Or.inl (h1.mpr ⟨hf, by simp [classifyF, lstatM, hfind, hv]⟩)
        · exact Or.inr (Or.inl (h2.mpr ⟨hf, by simp [classifyF, lstatM, hfind, hv]⟩))
  · have hcb : classifyF fs wt f = some .broken := by
      simp [classifyF, lstatM, ht, hbad]
    refine ⟨h2.mpr ⟨hf, hcb⟩, fun hv => ?_, fun hm => ?_⟩
    · have := (h1.mp hv).2
      rw [hcb] at this
      simp at this
    · have := (h3.mp hm).2
      rw [hcb] at this
      simp at this

/-- Witness for C5 at a concrete input: one dangling symbolic reference and
nothing else yields broken = [file], valid = [], missing = []. -/
theorem validateSymlinks_classification_witness :
    ("f" ∈ (["f"] : List String)) ∧
    validateSymlinks [((["t", "f"] : Path), FsNode.symlink ⟨true, ["nowhere"]⟩)]
        ⟨["t"], "b", "h", false⟩ ["f"] =
      ⟨[], ["f"], []⟩ ∧
    ("f" ∈ (validateSymlinks [((["t", "f"] : Path), FsNode.symlink ⟨true, ["nowhere"]⟩)]
        ⟨["t"], "b", "h", false⟩ ["f"]).broken ∧
      "f" ∉ (validateSymlinks [((["t", "f"] : Path), FsNode.symlink ⟨true, ["nowhere"]⟩)]
        ⟨["t"], "b", "h", false⟩ ["f"]).valid ∧
      "f" ∉ (validateSymlinks [((["t", "f"] : Path), FsNode.symlink ⟨true, ["nowhere"]⟩)]
        ⟨["t"], "b", "h", false⟩ ["f"]).missing) :=
  ⟨by decide, by decide,
    (validateSymlinks_classification _ _ _ _ (by decide)).2.2 ⟨true, ["nowhere"]⟩
      (by decide) (by decide)⟩

/-- Counterexample to C1 as frozen: a dangling symbolic reference at the
target path (source file present) is classified `create`, not `update`,
because the planner's `existsSync` follows the link and reports absence. -/
theorem createSyncAction_dangling_create_cex :
    (createSyncAction
        [((["s"] : Path), FsNode.dir), ((["t"] : Path), FsNode.dir),
         ((["s", "f"] : Path), FsNode.file),
         ((["t", "f"] : Path), FsNode.symlink ⟨true, ["nowhere"]⟩)]
        ⟨["s"], "main", "h", true⟩ ⟨["t"], "feat", "h2", false⟩ "f" .relative false).action
      = .create ∧
    findNode
        [((["s"] : Path), FsNode.dir), ((["t"] : Path), FsNode.dir),
         ((["s", "f"] : Path), FsNode.file),
         ((["t", "f"] : Path), FsNode.symlink ⟨true, ["nowhere"]⟩)]
        ((["t"] : Path) ++ parseRel "f") = some (.symlink ⟨true, ["nowhere"]⟩) ∧
    existsSyncB
        [((["s"] : Path), FsNode.dir), ((["t"] : Path), FsNode.dir),
         ((["s", "f"] : Path), FsNode.file),
         ((["t", "f"] : Path), FsNode.symlink ⟨true, ["nowhere"]⟩)]
        ((["s"] : Path) ++ parseRel "f") = true := by
  refine ⟨by decide, by decide, by decide⟩

/-- C1 (amended): when the source file exists and the target path holds a
symbolic reference that itself resolves (`existsSync` true, i.e. not
dangling), planning classifies the pair `skip` with the already-correct
reason exactly when the link points to the source, `update` with the
points-elsewhere reason otherwise, and never `create`; a dangling reference
is instead treated like an absent target and classified `create`. -/
theorem createSyncAction_resolvable_symlink_cases (fs : FS)
    (src tgt : Worktree) (f : String) (mode : LinkMode) (ow : Bool)
    (hsrc : existsSyncB fs (src.path ++ parseRel f) = true)
    (t : LinkText)
    (htl : findNode fs (tgt.path ++ parseRel f) = some (FsNode.symlink t))
    (hres : existsSyncB fs (tgt.path ++ parseRel f) = true) :
    (isSymlinkPointingTo fs (tgt.path ++ parseRel f) (src.path ++ parseRel f) = true →
      (createSyncAction fs src tgt f mode ow).action = .skip ∧
      (createSyncAction fs src tgt f mode ow).reason =
        "Symlink already exists and points to correct source") ∧
    (isSymlinkPointingTo fs (tgt.path ++ parseRel f) (src.path ++ parseRel f) = false →
      (createSyncAction fs src tgt f mode ow).action = .update ∧
      (createSyncAction fs src tgt f mode ow).reason =
        "Symlink exists but points to different source") ∧
    (createSyncAction fs src tgt f mode ow).action ≠ .create := by
  by_cases hpt : isSymlinkPointingTo fs (tgt.path ++ parseRel f) (src.path ++ parseRel f)
  · refine ⟨fun _ => ?_, fun hcon => ?_, ?_⟩ <;>
      simp [createSyncAction, hsrc, hres, htl, hpt] at *
  · refine ⟨fun hcon => ?_, fun _ => ?_, ?_⟩ <;>
      simp [createSyncAction, hsrc, hres, htl, hpt] at *

/-- Witness for C1 at a concrete input: an existing correct link is skipped
as already correct, by the amended theorem. -/
theorem createSyncAction_resolvable_symlink_cases_witness :
    existsSyncB
        [((["s", "f"] : Path), FsNode.file),
         ((["t", "f"] : Path), FsNode.symlink ⟨false, ["..", "s", "f"]⟩)]
        ((["s"] : Path) ++ parseRel "f") = true ∧
    findNode
        [((["s", "f"] : Path), FsNode.file),
         ((["t", "f"] : Path), FsNode.symlink ⟨false, ["..", "s", "f"]⟩)]
        ((["t"] : Path) ++ parseRel "f") =
      some (FsNode.symlink ⟨false, ["..", "s", "f"]⟩) ∧
    existsSyncB
        [((["s", "f"] : Path), FsNode.file),
         ((["t", "f"] : Path), FsNode.symlink ⟨false, ["..", "s", "f"]⟩)]
        ((["t"] : Path) ++ parseRel "f") = true ∧
    (isSymlinkPointingTo
        [((["s", "f"] : Path), FsNode.file),
         ((["t", "f"] : Path), FsNode.symlink ⟨false, ["..", "s", "f"]⟩)]
        ((["t"] : Path) ++ parseRel "f") ((["s"] : Path) ++ parseRel "f") = true →
      (createSyncAction
          [((["s", "f"] : Path), FsNode.file),
           ((["t", "f"] : Path), FsNode.symlink ⟨false, ["..", "s", "f"]⟩)]
          ⟨["s"], "main", "h", true⟩ ⟨["t"], "feat", "h2", false⟩ "f" .relative
          false).action = .skip ∧
      (createSyncAction
          [((["s", "f"] : Path), FsNode.file),
           ((["t", "f"] : Path), FsNode.symlink ⟨false, ["..", "s", "f"]⟩)]
          ⟨["s"], "main", "h", true⟩ ⟨["t"], "feat", "h2", false⟩ "f" .relative
          false).reason = "Symlink already exists and points to correct source") :=
  ⟨by decide, by decide, by decide,
    (createSyncAction_resolvable_symlink_cases
      [((["s", "f"] : Path), FsNode.file),
       ((["t", "f"] : Path), FsNode.symlink ⟨false, ["..", "s", "f"]⟩)]
      ⟨["s"], "main", "h", true⟩ ⟨["t"], "feat", "h2", false⟩ "f" .relative false
      (by decide) ⟨false, ["..", "s", "f"]⟩ (by decide) (by decide)).1⟩

/-- Counterexample to C4 as frozen: a selector matching no worktree does not
raise "source not found" — the main worktree is silently substituted. -/
theorem getSourceWorktree_fallback_cex :
    getSourceWorktree [⟨["path", "to", "main"], "main", "abc", true⟩]
        ["path", "to", "main"] "nonexistent" =
      .ok ⟨["path", "to", "main"], "main", "abc", true⟩ ∧
    ("main" : String) ≠ "nonexistent" ∧
    basenameOf ["path", "to", "main"] ≠ "nonexistent" :=
  ⟨rfl, by decide, by decide⟩

/-- C4 (amended): when the source selector matches no worktree by branch
name, absolute path, root- or parent-resolved path, or directory basename,
`getSourceWorktree` falls back to the first main worktree when one exists,
and raises the "source not found" condition only when no main worktree
exists either. -/
theorem getSourceWorktree_noMatch_fallback (wts : List Worktree) (root : Path)
    (sel : String)
    (hnm : ∀ wt ∈ wts, wt.branch ≠ sel ∧ wt.path ≠ parsePathStr sel ∧
      wt.path ≠ resolveStrFrom root sel ∧ wt.path ≠ resolveStrFrom (parent root) sel ∧
      basenameOf wt.path ≠ sel) :
    getSourceWorktree wts root sel =
      (match wts.find? (fun wt => wt.isMain) with
       | some wt => .ok wt
       | none => .error "Source worktree not found") := by
  have h1 : wts.find? (fun wt => wt.branch = sel) = none :=
    List.find?_eq_none.mpr (fun wt hwt => by simpa using (hnm wt hwt).1)
  have h2 : wts.find? (fun wt => wt.path = parsePathStr sel) = none :=
    List.find?_eq_none.mpr (fun wt hwt => by simpa using (hnm wt hwt).2.1)
  have h3a : wts.find? (fun wt => wt.path = resolveStrFrom root sel) = none :=
    List.find?_eq_none.mpr (fun wt hwt => by simpa using (hnm wt hwt).2.2.1)
  have h3b : wts.find? (fun wt => wt.path = resolveStrFrom (parent root) sel) = none :=
    List.find?_eq_none.mpr (fun wt hwt => by simpa using (hnm wt hwt).2.2.2.1)
  have h4 : wts.find? (fun wt => basenameOf wt.path = sel) = none :=
    List.find?_eq_none.mpr (fun wt hwt => by simpa using (hnm wt hwt).2.2.2.2)
  simp only [getSourceWorktree, h1, h2, h3a, h3b, h4, ite_self]
  rfl

/-- Witness for C4 at a concrete input: nothing matches "zzz", there is a
main worktree, so the fallback returns it. -/
theorem getSourceWorktree_noMatch_fallback_witness :
    (∀ wt ∈ [(⟨["a", "m"], "main", "h", true⟩ : Worktree)],
      wt.branch ≠ "zzz" ∧ wt.path ≠ parsePathStr "zzz" ∧
      wt.path ≠ resolveStrFrom ["a", "m"] "zzz" ∧
      wt.path ≠ resolveStrFrom (parent ["a", "m"]) "zzz" ∧
      basenameOf wt.path ≠ "zzz") ∧
    getSourceWorktree [(⟨["a", "m"], "main", "h", true⟩ : Worktree)] ["a", "m"] "zzz" =
      (match [(⟨["a", "m"], "main", "h", true⟩ : Worktree)].find? (fun wt => wt.isMain) with
       | some wt => .ok wt
       | none => .error "Source worktree not found") :=
  ⟨by decide, getSourceWorktree_noMatch_fallback _ _ _ (by decide)⟩

/-- Basic field facts about a planned action. -/
theorem createSyncAction_basic (fs : FS) (s t : Worktree) (f : String)
    (mode : LinkMode) (ow : Bool) :
    (createSyncAction fs s t f mode ow).targetWorktree = t.path ∧
    (createSyncAction fs s t f mode ow).file = f := by
  unfold createSyncAction
  by_cases h1 : existsSyncB fs (s.path ++ parseRel f)
  · by_cases h2 : existsSyncB fs (t.path ++ parseRel f)
    · cases hn : findNode fs (t.path ++ parseRel f) with
      | none => by_cases how : ow <;> simp [h1, h2, hn, how]
      | some n =>
        cases n with
        | symlink tl =>
          by_cases hp : isSymlinkPointingTo fs (t.path ++ parseRel f) (s.path ++ parseRel f) <;>
            simp [h1, h2, hn, hp]
        | file => by_cases how : ow <;> simp [h1, h2, hn, how]
        | dir => by_cases how : ow <;> simp [h1, h2, hn, how]
        | inaccessible => by_cases how : ow <;> simp [h1, h2, hn, how]
    · simp [h1, h2]
  · simp [h1]

/-- C9: the reserved configuration file name is always part of the planned
file set — kept as is when pattern resolution already yielded it, prepended
otherwise — so every target tree receives an action for it. -/
theorem configFile_always_planned :
    (∀ files, CONFIG_FILE_NAME ∈ ensureConfigFileIncluded files) ∧
    (∀ files, CONFIG_FILE_NAME ∈ files → ensureConfigFileIncluded files = files) ∧
    (∀ files, CONFIG_FILE_NAME ∉ files →
      ensureConfigFileIncluded files = CONFIG_FILE_NAME :: files) ∧
    (∀ fs src targets pats ig mode ow, ∀ t ∈ targets,
      ∃ a ∈ (createSyncPlan fs src targets pats ig mode ow).syncActions,
        a.targetWorktree = t.path ∧ a.file = CONFIG_FILE_NAME) := by
  have hmem : ∀ files, CONFIG_FILE_NAME ∈ ensureConfigFileIncluded files := by
    intro files
    by_cases h : CONFIG_FILE_NAME ∈ files <;> simp [ensureConfigFileIncluded, h]
  refine ⟨hmem, fun files h => by simp [ensureConfigFileIncluded, h],
    fun files h => by simp [ensureConfigFileIncluded, h], ?_⟩
  intro fs src targets pats ig mode ow t ht
  refine ⟨createSyncAction fs src t CONFIG_FILE_NAME mode ow, ?_, ?_⟩
  · simp only [createSyncPlan, List.mem_flatMap]
    exact ⟨t, ht, List.mem_map.mpr ⟨CONFIG_FILE_NAME, hmem _, rfl⟩⟩
  · exact createSyncAction_basic fs src t CONFIG_FILE_NAME mode ow

/-- Witness for C9 at a concrete input. -/
theorem configFile_always_planned_witness :
    (⟨["t"], "b", "h", false⟩ : Worktree) ∈ [(⟨["t"], "b", "h", false⟩ : Worktree)] ∧
    ∃ a ∈ (createSyncPlan [] ⟨["s"], "main", "h", true⟩
        [(⟨["t"], "b", "h", false⟩ : Worktree)] ["*.txt"] [] .relative
        false).syncActions,
      a.targetWorktree = (["t"] : Path) ∧ a.file = CONFIG_FILE_NAME :=
  ⟨by decide,
    configFile_always_planned.2.2.2 [] ⟨["s"], "main", "h", true⟩
      [⟨["t"], "b", "h", false⟩] ["*.txt"] [] .relative false
      ⟨["t"], "b", "h", false⟩ (by decide)⟩

/-! Order lemmas for the lexicographic string comparison. -/

theorem lexLe_cons_iff (a b : Char) (as bs : List Char) :
    lexLe (a :: as) (b :: bs) = true ↔
      a.toNat < b.toNat ∨ (a.toNat = b.toNat ∧ lexLe as bs = true) := by
  show (if a.toNat < b.toNat then true
    else if b.toNat < a.toNat then false else lexLe as bs) = true ↔ _
  split_ifs with h1 h2
  · simp [h1]
  · constructor
    · intro h
      simp at h
    · intro h
      rcases h with h | ⟨h, _⟩ <;> omega
  · constructor
    · intro h
      exact Or.inr ⟨by omega, h⟩
    · intro h
      rcases h with h | ⟨_, h⟩
      · omega
      · exact h

theorem lexLe_total : ∀ x y : List Char, lexLe x y = true ∨ lexLe y x = true
  | [], _ => Or.inl rfl
  | _ :: _, [] => Or.inr rfl
  | a :: as, b :: bs => by
    rcases Nat.lt_trichotomy a.toNat b.toNat with h | h | h
    · exact Or.inl ((lexLe_cons_iff a b as bs).mpr (Or.inl h))
    · rcases lexLe_total as bs with ih | ih
      · exact Or.inl ((lexLe_cons_iff a b as bs).mpr (Or.inr ⟨h, ih⟩))
      · exact Or.inr ((lexLe_cons_iff b a bs as).mpr (Or.inr ⟨h.symm, ih⟩))
    · exact Or.inr ((lexLe_cons_iff b a bs as).mpr (Or.inl h))

theorem lexLe_trans : ∀ x y z : List Char,
    lexLe x y = true → lexLe y z = true → lexLe x z = true
  | [], _, _, _, _ => rfl
  | _ :: _, [], _, h1, _ => by simp [lexLe] at h1
  | _ :: _, _ :: _, [], _, h2 => by simp [lexLe] at h2
  | a :: as, b :: bs, c :: cs, h1, h2 => by
    rw [lexLe_cons_iff] at h1 h2 ⊢
    rcases h1 with h1 | ⟨h1e, h1r⟩
    · rcases h2 with h2 | ⟨h2e, _⟩
      · exact Or.inl (by omega)
      · exact Or.inl (by omega)
    · rcases h2 with h2 | ⟨h2e, h2r⟩
      · exact Or.inl (by omega)
      · exact Or.inr ⟨by omega, lexLe_trans as bs cs h1r h2r⟩

theorem lexLe_antisymm : ∀ x y : List Char,
    lexLe x y = true → lexLe y x = true → x = y
  | [], [], _, _ => rfl
  | [], _ :: _, _, h2 => by simp [lexLe] at h2
  | _ :: _, [], h1, _ => by simp [lexLe] at h1
  | a :: as, b :: bs, h1, h2 => by
    rw [lexLe_cons_iff] at h1 h2
    have hab : a.toNat = b.toNat := by
      rcases h1 with h1 | ⟨h1e, _⟩ <;> rcases h2 with h2 | ⟨h2e, _⟩ <;> omega
    have ha : a = b := by
      have hv : a.val = b.val := UInt32.toNat.inj hab
      exact Char.eq_of_val_eq hv
    rcases h1 with h1 | ⟨_, h1r⟩
    · omega
    · rcases h2 with h2 | ⟨_, h2r⟩
      · omega
      · rw [ha, lexLe_antisymm as bs h1r h2r]

theorem strLe_total (a b : String) : strLe a b = true ∨ strLe b a = true :=
  lexLe_total a.toList b.toList

theorem strLe_trans {a b c : String} (h1 : strLe a b = true) (h2 : strLe b c = true) :
    strLe a c = true :=
  lexLe_trans a.toList b.toList c.toList h1 h2

theorem strLe_antisymm {a b : String} (h1 : strLe a b = true) (h2 : strLe b a = true) :
    a = b :=
  String.toList_inj.mp (lexLe_antisymm a.toList b.toList h1 h2)

instance : IsTotal String (fun a b => strLe a b = true) := ⟨strLe_total⟩

instance : IsTrans String (fun a b => strLe a b = true) := ⟨fun _ _ _ => strLe_trans⟩

instance : IsAntisymm String (fun a b => strLe a b = true) := ⟨fun _ _ => strLe_antisymm⟩

/-! Lemmas about deduplication and sorting. -/

theorem mem_dedupFirst_go (l : List String) :
    ∀ acc x, (x ∈ l.foldl (fun acc x => if x ∈ acc then acc else acc ++ [x]) acc) ↔
      x ∈ acc ∨ x ∈ l := by
  induction l with
  | nil => simp
  | cons a rest ih =>
    intro acc x
    simp only [List.foldl_cons]
    by_cases ha : a ∈ acc
    · rw [if_pos ha, ih]
      constructor
      · rintro (h | h)
        · exact Or.inl h
        · exact Or.inr (List.mem_cons_of_mem a h)
      · rintro (h | h)
        · exact Or.inl h
        · rcases List.mem_cons.mp h with rfl | h
          · exact Or.inl ha
          · exact Or.inr h
    · rw [if_neg ha, ih]
      constructor
      · rintro (h | h)
        · rcases List.mem_append.mp h with h | h
          · exact Or.inl h
          · simp at h
            exact Or.inr (h ▸ List.mem_cons_self a rest)
        · exact Or.inr (List.mem_cons_of_mem a h)
      · rintro (h | h)
        · exact Or.inl (List.mem_append.mpr (Or.inl h))
        · rcases List.mem_cons.mp h with rfl | h
          · exact Or.inl (by simp)
          · exact Or.inr h

theorem nodup_dedupFirst_go (l : List String) :
    ∀ acc, acc.Nodup →
      (l.foldl (fun acc x => if x ∈ acc then acc else acc ++ [x]) acc).Nodup := by
  induction l with
  | nil => exact fun acc h => h
  | cons a rest ih =>
    intro acc hacc
    simp only [List.foldl_cons]
    by_cases ha : a ∈ acc
    · rw [if_pos ha]
      exact ih acc hacc
    · rw [if_neg ha]
      refine ih _ ?_
      simpa [List.nodup_append, hacc] using ha

theorem mem_dedupFirst (l : List String) (x : String) : x ∈ dedupFirst l ↔ x ∈ l := by
  rw [dedupFirst, mem_dedupFirst_go]
  simp

theorem nodup_dedupFirst (l : List String) : (dedupFirst l).Nodup :=
  nodup_dedupFirst_go l [] List.nodup_nil

theorem sortStrings_sorted (l : List String) :
    List.Sorted (fun a b => strLe a b = true) (sortStrings l) :=
  List.sorted_insertionSort _ l

theorem sortStrings_perm (l : List String) : (sortStrings l).Perm l :=
  List.perm_insertionSort _ l

theorem sortStrings_eq_of_same_mem {l1 l2 : List String}
    (h1 : l1.Nodup) (h2 : l2.Nodup) (hm : ∀ x, x ∈ l1 ↔ x ∈ l2) :
    sortStrings l1 = sortStrings l2 := by
  have hperm : l1.Perm l2 := (List.perm_ext_iff_of_nodup h1 h2).mpr hm
  exact List.eq_of_perm_of_sorted
    ((sortStrings_perm l1).trans (hperm.trans (sortStrings_perm l2).symm))
    (sortStrings_sorted l1) (sortStrings_sorted l2)

/-- The set of files a pattern-resolution run keeps, before sorting. -/
theorem mem_resolve_pre (fs : FS) (src : Worktree) (pats ig : List String)
    (x : String) :
    (x ∈ (dedupFirst (pats.flatMap (fun pat => globM fs src.path pat))).filter
        (fun file => !(ig.any (fun igp => minimatchB file igp)))) ↔
      ((∃ p ∈ pats, x ∈ globM fs src.path p) ∧
        ¬ ∃ igp ∈ ig, minimatchB x igp = true) := by
  rw [List.mem_filter, mem_dedupFirst, List.mem_flatMap]
  simp

/-- C8: pattern resolution — the concrete inclusion example resolves to the
sorted, deduplicated set; the result depends on the inclusion patterns only
through membership (order and duplication are irrelevant); a file matching
any exclusion pattern never appears; the result is sorted and deduplicated;
and an inclusion pattern matching zero files changes nothing (it is not an
error). -/
theorem resolveFilePatterns_spec :
    (resolveFilePatterns
        [((["s"] : Path), FsNode.dir), ((["s", "a.txt"] : Path), FsNode.file),
         ((["s", "dev.env"] : Path), FsNode.file),
         ((["s", "test.env"] : Path), FsNode.file),
         ((["s", "b.txt"] : Path), FsNode.file)]
        ⟨["s"], "main", "h", true⟩ ["a.txt", "*.env"] [] =
      ["a.txt", "dev.env", "test.env"]) ∧
    (∀ fs src pats1 pats2 ig, (∀ p, p ∈ pats1 ↔ p ∈ pats2) →
      resolveFilePatterns fs src pats1 ig = resolveFilePatterns fs src pats2 ig) ∧
    (∀ fs src pats ig f igp, igp ∈ ig → minimatchB f igp = true →
      f ∉ resolveFilePatterns fs src pats ig) ∧
    (∀ fs src pats ig,
      List.Sorted (fun a b => strLe a b = true) (resolveFilePatterns fs src pats ig) ∧
      (resolveFilePatterns fs src pats ig).Nodup) ∧
    (∀ fs src pats ig p, (∀ f ∈ filesUnder fs src.path, globMatch p f = false) →
      resolveFilePatterns fs src (pats ++ [p]) ig = resolveFilePatterns fs src pats ig) := by
  refine ⟨by decide, ?_, ?_, ?_, ?_⟩
  · intro fs src pats1 pats2 ig hm
    apply sortStrings_eq_of_same_mem
    · exact (nodup_dedupFirst _).filter _
    · exact (nodup_dedupFirst _).filter _
    · intro x
      rw [mem_resolve_pre, mem_resolve_pre]
      constructor
      · rintro ⟨⟨p, hp, hx⟩, hnig⟩
        exact ⟨⟨p, (hm p).mp hp, hx⟩, hnig⟩
      · rintro ⟨⟨p, hp, hx⟩, hnig⟩
        exact ⟨⟨p, (hm p).mpr hp, hx⟩, hnig⟩
  · intro fs src pats ig f igp hig hmatch hmem
    rw [resolveFilePatterns] at hmem
    have hmem2 := (sortStrings_perm _).mem_iff.mp hmem
    rw [mem_resolve_pre] at hmem2
    exact hmem2.2 ⟨igp, hig, hmatch⟩
  · intro fs src pats ig
    refine ⟨sortStrings_sorted _, ?_⟩
    exact ((sortStrings_perm _).nodup_iff).mpr ((nodup_dedupFirst _).filter _)
  · intro fs src pats ig p hzero
    have hglob : globM fs src.path p = [] := by
      rw [globM, List.filter_eq_nil_iff]
      intro f hf
      simp [hzero f hf]
    rw [resolveFilePatterns, resolveFilePatterns, List.flatMap_append]
    simp [hglob]

/-- Witness for C8 at concrete inputs: reordering and duplicating the
inclusion patterns leaves the resolved list unchanged. -/
theorem resolveFilePatterns_spec_witness :
    (∀ p, p ∈ (["a.txt", "*.env"] : List String) ↔
        p ∈ (["*.env", "a.txt", "a.txt"] : List String)) ∧
    resolveFilePatterns
        [((["s"] : Path), FsNode.dir), ((["s", "a.txt"] : Path), FsNode.file),
         ((["s", "dev.env"] : Path), FsNode.file)]
        ⟨["s"], "main", "h", true⟩ ["a.txt", "*.env"] [] =
      resolveFilePatterns
        [((["s"] : Path), FsNode.dir), ((["s", "a.txt"] : Path), FsNode.file),
         ((["s", "dev.env"] : Path), FsNode.file)]
        ⟨["s"], "main", "h", true⟩ ["*.env", "a.txt", "a.txt"] [] :=
  ⟨fun p => by constructor <;> (intro h; simp only [List.mem_cons] at h ⊢; tauto),
    resolveFilePatterns_spec.2.1 _ _ _ _ _
      (fun p => by constructor <;> (intro h; simp only [List.mem_cons] at h ⊢; tauto))⟩

/-! Accounting lemmas for plan execution. -/

theorem updateResultCounts_sum (k : ActionKind) (r : SyncResult) :
    (updateResultCounts k r).created + (updateResultCounts k r).updated +
        (updateResultCounts k r).skipped =
      r.created + r.updated + r.skipped + 1 ∧
    (updateResultCounts k r).errors = r.errors := by
  cases k <;> simp [updateResultCounts] <;> omega

theorem executePlan_cons_live (ow : Bool) (fs : FS) (a : SyncAction)
    (rest : List SyncAction) (r : SyncResult) :
    executePlan ow false fs (a :: rest) r =
      (match executeAction fs a ow with
       | (fs1, none) => executePlan ow false fs1 rest (updateResultCounts a.action r)
       | (fs1, some e) =>
         executePlan ow false fs1 rest
           { r with errors := r.errors ++ [⟨a.file, a.targetWorktree, e.message, e.code⟩] }) :=
  rfl

theorem executePlan_accounting (ow : Bool) :
    ∀ (acts : List SyncAction) (fs : FS) (r : SyncResult),
      (executePlan ow false fs acts r).2.created + (executePlan ow false fs acts r).2.updated +
          (executePlan ow false fs acts r).2.skipped +
          (executePlan ow false fs acts r).2.errors.length =
        r.created + r.updated + r.skipped + r.errors.length + acts.length := by
  intro acts
  induction acts with
  | nil => intro fs r; simp [executePlan]
  | cons a rest ih =>
    intro fs r
    rw [executePlan_cons_live]
    cases hx : executeAction fs a ow with
    | mk fs1 err =>
      cases err with
      | none =>
        rw [ih fs1 (updateResultCounts a.action r)]
        obtain ⟨h1, h2⟩ := updateResultCounts_sum a.action r
        rw [h2]
        simp only [List.length_cons]
        omega
      | some e =>
        rw [ih fs1 _]
        simp only [List.length_append, List.length_cons, List.length_nil]
        omega

theorem executePlan_errors_itemized (ow : Bool) :
    ∀ (acts : List SyncAction) (fs : FS) (r : SyncResult) (e : SyncError),
      e ∈ (executePlan ow false fs acts r).2.errors →
      e ∈ r.errors ∨ ∃ a ∈ acts, e.file = a.file ∧ e.worktree = a.targetWorktree := by
  intro acts
  induction acts with
  | nil =>
    intro fs r e he
    exact Or.inl he
  | cons a rest ih =>
    intro fs r e he
    rw [executePlan_cons_live] at he
    cases hx : executeAction fs a ow with
    | mk fs1 errOpt =>
      rw [hx] at he
      cases errOpt with
      | none =>
        rcases ih fs1 (updateResultCounts a.action r) e he with h | ⟨b, hb, hbe⟩
        · rw [(updateResultCounts_sum a.action r).2] at h
          exact Or.inl h
        · exact Or.inr ⟨b, List.mem_cons_of_mem a hb, hbe⟩
      | some err =>
        rcases ih fs1 _ e he with h | ⟨b, hb, hbe⟩
        · rcases List.mem_append.mp h with h | h
          · exact Or.inl h
          · simp only [List.mem_singleton] at h
            subst h
            exact Or.inr ⟨a, List.mem_cons_self a rest, rfl, rfl⟩
        · exact Or.inr ⟨b, List.mem_cons_of_mem a hb, hbe⟩

/-- C6: (i) an unreachable source tree makes the run abort with the fatal
validation error and no filesystem mutation; (ii) an unreachable target tree
never invalidates the plan, so it does not abort the run; (iii) execution
attempts every action — the final counters and error list account for each
action exactly once — and every recorded error is itemized with its action's
file and worktree. -/
theorem sync_validation_gate_and_isolation :
    (∀ fs (src : Worktree) targets pats ig mode ow dr,
      existsSyncB fs src.path = false →
      sync fs src targets pats ig mode ow dr =
        (fs, ⟨false, 0, 0, 0,
          [⟨"", [], "Source worktree is not accessible", some "VALIDATION_ERROR"⟩]⟩)) ∧
    (∀ fs (plan : SyncPlan), existsSyncB fs plan.sourceWorktree.path = true →
      (validatePlan fs plan).valid = true) ∧
    (∀ ow acts fs,
      (executePlan ow false fs acts ⟨false, 0, 0, 0, []⟩).2.created +
          (executePlan ow false fs acts ⟨false, 0, 0, 0, []⟩).2.updated +
          (executePlan ow false fs acts ⟨false, 0, 0, 0, []⟩).2.skipped +
          (executePlan ow false fs acts ⟨false, 0, 0, 0, []⟩).2.errors.length =
        acts.length) ∧
    (∀ ow acts fs e, e ∈ (executePlan ow false fs acts ⟨false, 0, 0, 0, []⟩).2.errors →
      ∃ a ∈ acts, e.file = a.file ∧ e.worktree = a.targetWorktree) := by
  refine ⟨?_, ?_, ?_, ?_⟩
  · intro fs src targets pats ig mode ow dr hsrc
    rw [sync]
    simp [validatePlan, validateWorktreeAccess, createSyncPlan, hsrc]
  · intro fs plan hsrc
    simp [validatePlan, validateWorktreeAccess, hsrc]
  · intro ow acts fs
    have := executePlan_accounting ow acts fs ⟨false, 0, 0, 0, []⟩
    simpa using this
  · intro ow acts fs e he
    rcases executePlan_errors_itemized ow acts fs ⟨false, 0, 0, 0, []⟩ e he with h | h
    · simp at h
    · exact h

/-- Witness for C6 at a concrete input: an absent source root aborts the run
with the single validation error and without touching the filesystem. -/
theorem sync_validation_gate_and_isolation_witness :
    existsSyncB [] ((⟨["s"], "main", "h", true⟩ : Worktree).path) = false ∧
    sync [] ⟨["s"], "main", "h", true⟩ [⟨["t"], "b", "h2", false⟩] ["a.txt"] []
        .relative false false =
      ([], ⟨false, 0, 0, 0,
        [⟨"", [], "Source worktree is not accessible", some "VALIDATION_ERROR"⟩]⟩) :=
  ⟨by decide,
    sync_validation_gate_and_isolation.1 [] ⟨["s"], "main", "h", true⟩
      [⟨["t"], "b", "h2", false⟩] ["a.txt"] [] .relative false false (by decide)⟩

/-! Path algebra lemmas: normalization, the relative-link round trip, and the
parse / render round trip for well-formed segments. -/

theorem goodSeg_spec {s : String} (h : goodSeg s = true) :
    s ≠ "" ∧ s ≠ "." ∧ s ≠ ".." ∧ s.toList.contains '/' = false := by
  simp only [goodSeg, Bool.and_eq_true, decide_eq_true_eq, Bool.not_eq_true'] at h
  exact ⟨h.1.1.1, h.1.1.2, h.1.2, h.2⟩

theorem foldl_normStep_good :
    ∀ (p : List String) (acc : List String), (∀ s ∈ p, goodSeg s = true) →
      p.foldl normStep acc = acc ++ p := by
  intro p
  induction p with
  | nil => intro acc _; simp
  | cons s rest ih =>
    intro acc h
    have hs := goodSeg_spec (h s (List.mem_cons_self s rest))
    have hstep : normStep acc s = acc ++ [s] := by
      rw [normStep, if_neg hs.2.2.1, if_neg hs.2.1]
    simp only [List.foldl_cons, hstep]
    rw [ih _ (fun x hx => h x (List.mem_cons_of_mem s hx))]
    simp

theorem normAbs_eq_self {p : Path} (h : goodPath p = true) : normAbs p = p := by
  have h' : ∀ s ∈ p, goodSeg s = true := by
    intro s hs
    exact List.all_eq_true.mp h s hs
  rw [normAbs, foldl_normStep_good p [] h']
  simp

theorem goodPath_append {p q : Path} (hp : goodPath p = true) (hq : goodPath q = true) :
    goodPath (p ++ q) = true := by
  simp only [goodPath, List.all_append, Bool.and_eq_true]
  exact ⟨hp, hq⟩

theorem goodPath_sub {p q : Path} (hp : goodPath p = true) (h : q.Sublist p) :
    goodPath q = true := by
  rw [goodPath, List.all_eq_true] at *
  exact fun s hs => hp s (h.mem hs)

theorem goodPath_dropLast {p : Path} (hp : goodPath p = true) :
    goodPath p.dropLast = true :=
  goodPath_sub hp (List.dropLast_sublist p)

theorem goodPath_take {p : Path} (hp : goodPath p = true) (n : Nat) :
    goodPath (p.take n) = true :=
  goodPath_sub hp (List.take_sublist n p)

theorem goodPath_drop {p : Path} (hp : goodPath p = true) (n : Nat) :
    goodPath (p.drop n) = true :=
  goodPath_sub hp (List.drop_sublist n p)

theorem commonLen_le_left : ∀ a b : List String, commonLen a b ≤ a.length
  | [], _ => by simp [commonLen]
  | _ :: _, [] => by simp [commonLen]
  | x :: xs, y :: ys => by
    rw [commonLen]
    split_ifs
    · simpa using commonLen_le_left xs ys
    · simp

theorem commonLen_le_right : ∀ a b : List String, commonLen a b ≤ b.length
  | [], _ => by simp [commonLen]
  | _ :: _, [] => by simp [commonLen]
  | x :: xs, y :: ys => by
    rw [commonLen]
    split_ifs
    · simpa using commonLen_le_right xs ys
    · simp

theorem commonLen_take : ∀ a b : List String,
    a.take (commonLen a b) = b.take (commonLen a b)
  | [], b => by simp [commonLen]
  | _ :: _, [] => by simp [commonLen]
  | x :: xs, y :: ys => by
    rw [commonLen]
    split_ifs with h
    · simp only [List.take_succ_cons, h]
      rw [commonLen_take xs ys]
    · simp

theorem foldl_normStep_dotdot :
    ∀ (k : Nat) (acc : List String),
      (List.replicate k "..").foldl normStep acc = acc.take (acc.length - k) := by
  intro k
  induction k with
  | zero => intro acc; simp
  | succ n ih =>
    intro acc
    simp only [List.replicate_succ, List.foldl_cons]
    have hstep : normStep acc ".." = acc.dropLast := by rw [normStep, if_pos rfl]
    rw [hstep, ih, List.dropLast_eq_take, List.take_take]
    simp only [List.length_take]
    congr 1
    omega

theorem resolveAt_relSegs {base dst : Path} (hb : goodPath base = true)
    (hd : goodPath dst = true) :
    resolveAt base ⟨false, relSegs base dst⟩ = dst := by
  have hd' : ∀ s ∈ dst.drop (commonLen base dst), goodSeg s = true := by
    intro s hs
    exact List.all_eq_true.mp (goodPath_drop hd _) s hs
  rw [resolveAt]
  simp only [Bool.false_eq_true, if_neg, ite_false]
  rw [relSegs, normAbs]
  rw [show base ++ (List.replicate (base.length - commonLen base dst) ".." ++
      dst.drop (commonLen base dst)) =
    (base ++ List.replicate (base.length - commonLen base dst) "..") ++
      dst.drop (commonLen base dst) by simp]
  rw [List.foldl_append, List.foldl_append]
  rw [foldl_normStep_good base [] (fun s hs => List.all_eq_true.mp hb s hs)]
  simp only [List.nil_append]
  rw [foldl_normStep_dotdot]
  have hc1 : commonLen base dst ≤ base.length := commonLen_le_left base dst
  have htk : base.length - (base.length - commonLen base dst) = commonLen base dst := by
    omega
  rw [htk, commonLen_take base dst, foldl_normStep_good _ _ hd']
  exact List.take_append_drop _ dst

theorem resolveAt_mkLinkText {targetDir sourcePath : Path} (mode : LinkMode)
    (hb : goodPath targetDir = true) (hs : goodPath sourcePath = true) :
    resolveAt targetDir (mkLinkText mode targetDir sourcePath) = sourcePath := by
  cases mode with
  | relative => exact resolveAt_relSegs hb hs
  | absolute =>
    rw [mkLinkText, resolveAt]
    simp only [if_pos]
    exact normAbs_eq_self hs

theorem splitSlashAux_no_slash :
    ∀ (cs acc : List Char), '/' ∉ cs →
      splitSlashAux cs acc = [String.mk (acc.reverse ++ cs)] := by
  intro cs
  induction cs with
  | nil => intro acc _; simp [splitSlashAux]
  | cons c rest ih =>
    intro acc h
    have hc : c ≠ '/' := fun hc => h (hc ▸ List.mem_cons_self c rest)
    rw [splitSlashAux, if_neg (fun he => hc he)]
    rw [ih (c :: acc) (fun hm => h (List.mem_cons_of_mem c hm))]
    simp

theorem splitSlashAux_split :
    ∀ (cs ds acc : List Char), '/' ∉ cs →
      splitSlashAux (cs ++ '/' :: ds) acc =
        String.mk (acc.reverse ++ cs) :: splitSlashAux ds [] := by
  intro cs
  induction cs with
  | nil =>
    intro ds acc _
    simp [splitSlashAux]
  | cons c rest ih =>
    intro ds acc h
    have hc : c ≠ '/' := fun hc => h (hc ▸ List.mem_cons_self c rest)
    rw [List.cons_append, splitSlashAux, if_neg (fun he => hc he)]
    rw [ih ds (c :: acc) (fun hm => h (List.mem_cons_of_mem c hm))]
    simp

theorem toList_mk (cs : List Char) : (String.mk cs).toList = cs := rfl

theorem mk_toList (s : String) : String.mk s.toList = s := rfl

theorem no_slash_of_goodSeg {s : String} (h : goodSeg s = true) : '/' ∉ s.toList := by
  have hc := (goodSeg_spec h).2.2.2
  intro hm
  have : s.toList.contains '/' = true := List.elem_eq_true_of_mem hm
  rw [hc] at this
  exact absurd this (by simp)

theorem parseRel_render :
    ∀ segs : List String, segs ≠ [] → (∀ s ∈ segs, goodSeg s = true) →
      parseRel (render segs) = segs := by
  intro segs
  induction segs with
  | nil => intro h _; exact absurd rfl h
  | cons s rest ih =>
    intro _ hgood
    have hs := hgood s (List.mem_cons_self s rest)
    have hs0 : s ≠ "" := (goodSeg_spec hs).1
    have hns : '/' ∉ s.toList := no_slash_of_goodSeg hs
    cases rest with
    | nil =>
      show parseRel (render [s]) = [s]
      rw [show render [s] = s from rfl, parseRel, splitSlash,
        splitSlashAux_no_slash s.toList [] hns]
      simp [mk_toList, hs0]
    | cons r rs =>
      show parseRel (render (s :: r :: rs)) = s :: r :: rs
      have hrender : render (s :: r :: rs) = s ++ "/" ++ render (r :: rs) := rfl
      have htl : (s ++ "/" ++ render (r :: rs)).toList =
          s.toList ++ '/' :: (render (r :: rs)).toList := by
        show ((s ++ "/" ++ render (r :: rs)).data) = s.data ++ '/' :: (render (r :: rs)).data
        simp [String.data_append]
      rw [parseRel, splitSlash, hrender, htl, splitSlashAux_split _ _ [] hns]
      simp only [List.reverse_nil, List.nil_append, mk_toList, List.filter_cons]
      have hcond : decide (s ≠ "") = true := by simp [hs0]
      rw [hcond]
      simp only [if_pos]
      have := ih (by simp) (fun x hx => hgood x (List.mem_cons_of_mem s hx))
      rw [parseRel, splitSlash] at this
      simp only [List.cons.injEq, true_and]
      exact this

/-! Frame and postcondition lemmas for the mutating filesystem operations. -/

theorem findNode_cons_self (fs : FS) (q : Path) (n : FsNode) :
    findNode ((q, n) :: fs) q = some n := by
  rw [findNode, if_pos rfl]

theorem findNode_cons_ne (fs : FS) (q q' : Path) (n : FsNode) (h : q' ≠ q) :
    findNode ((q, n) :: fs) q' = findNode fs q' := by
  rw [findNode, if_neg (fun he => h he.symm)]

theorem find_unlink_ne : ∀ (fs : FS) (p q : Path), q ≠ p →
    findNode (unlinkSyncM fs p) q = findNode fs q := by
  intro fs
  induction fs with
  | nil => intro p q _; rfl
  | cons e rest ih =>
    intro p q hqp
    rw [unlinkSyncM]
    by_cases he : e.1 = p
    · have hcond : ¬ (e.1 = q) := by
        rw [he]
        exact fun h => hqp h.symm
      rw [if_pos he, findNode, if_neg hcond]
    · rw [if_neg he]
      show findNode (e :: unlinkSyncM rest p) q = findNode (e :: rest) q
      rw [findNode, findNode]
      by_cases hq : e.1 = q
      · rw [if_pos hq, if_pos hq]
      · rw [if_neg hq, if_neg hq, ih p q hqp]

theorem filesUnder_cons (e : Path × FsNode) (fs : FS) (root : Path) :
    filesUnder (e :: fs) root =
      (if e.2 = FsNode.file ∧ root <+: e.1 ∧ root.length < e.1.length
       then [render (e.1.drop root.length)] else []) ++ filesUnder fs root := by
  rw [filesUnder, List.filterMap_cons]
  split_ifs with h
  · rfl
  · rfl

theorem filesUnder_cons_nonfile (fs : FS) (q : Path) (n : FsNode) (root : Path)
    (h : n ≠ .file) :
    filesUnder ((q, n) :: fs) root = filesUnder fs root := by
  rw [filesUnder_cons]
  have hcon : ¬ (((q, n).2 = FsNode.file ∧ root <+: (q, n).1 ∧ root.length < (q, n).1.length)) := by
    intro hcon
    exact h hcon.1
  rw [if_neg hcon]
  rfl

theorem filesUnder_unlink_symlink : ∀ (fs : FS) (p : Path) (t : LinkText) (root : Path),
    findNode fs p = some (.symlink t) →
    filesUnder (unlinkSyncM fs p) root = filesUnder fs root := by
  intro fs
  induction fs with
  | nil => intro p t root _; rfl
  | cons e rest ih =>
    intro p t root hfind
    rw [unlinkSyncM]
    by_cases he : e.1 = p
    · rw [if_pos he]
      rw [findNode, if_pos he] at hfind
      have hnode : e.2 = .symlink t := by injection hfind
      obtain ⟨q, n⟩ := e
      simp only at hnode
      rw [hnode]
      exact (filesUnder_cons_nonfile rest q (.symlink t) root (by simp)).symm
    · rw [if_neg he]
      rw [findNode, if_neg he] at hfind
      show filesUnder (e :: unlinkSyncM rest p) root = filesUnder (e :: rest) root
      rw [filesUnder_cons, filesUnder_cons, ih p t root hfind]

theorem mkdirOne_frame (fs : FS) (q q' : Path) (h : q' ≠ q) :
    findNode (mkdirOne fs q).1 q' = findNode fs q' := by
  rw [mkdirOne]
  cases hf : findNode fs q with
  | none => exact findNode_cons_ne fs q q' .dir h
  | some n =>
    cases n with
    | file => rfl
    | dir => rfl
    | inaccessible => rfl
    | symlink t =>
      cases hfl : followLinks fs FUEL q with
      | ok q2 =>
        show findNode (if findNode fs q2 = some FsNode.dir then ((fs, none) : FS × Option String)
          else (fs, some "EEXIST")).1 q' = findNode fs q'
        split_ifs <;> rfl
      | error e => rfl

theorem mkdirOne_filesUnder (fs : FS) (q : Path) (root : Path) :
    filesUnder (mkdirOne fs q).1 root = filesUnder fs root := by
  rw [mkdirOne]
  cases hf : findNode fs q with
  | none => exact filesUnder_cons_nonfile fs q .dir root (by simp)
  | some n =>
    cases n with
    | file => rfl
    | dir => rfl
    | inaccessible => rfl
    | symlink t =>
      cases hfl : followLinks fs FUEL q with
      | ok q2 =>
        show filesUnder (if findNode fs q2 = some FsNode.dir then ((fs, none) : FS × Option String)
          else (fs, some "EEXIST")).1 root = filesUnder fs root
        split_ifs <;> rfl
      | error e => rfl

theorem mkdirFold_frame :
    ∀ (qs : List Path) (st : FS × Option String) (q' : Path), q' ∉ qs →
      findNode ((qs.foldl
        (fun st q => match st with
          | (fs', some e) => (fs', some e)
          | (fs', none) => mkdirOne fs' q) st).1) q' = findNode st.1 q' := by
  intro qs
  induction qs with
  | nil => intro st q' _; rfl
  | cons q rest ih =>
    intro st q' hq'
    have hne : q' ≠ q := fun he => hq' (he ▸ List.mem_cons_self q rest)
    have hnr : q' ∉ rest := fun hm => hq' (List.mem_cons_of_mem q hm)
    rw [List.foldl_cons]
    cases st with
    | mk fs0 err =>
      cases err with
      | some e => rw [ih (fs0, some e) q' hnr]
      | none =>
        rw [ih (mkdirOne fs0 q) q' hnr]
        exact mkdirOne_frame fs0 q q' hne

theorem mkdirFold_filesUnder :
    ∀ (qs : List Path) (st : FS × Option String) (root : Path),
      filesUnder ((qs.foldl
        (fun st q => match st with
          | (fs', some e) => (fs', some e)
          | (fs', none) => mkdirOne fs' q) st).1) root = filesUnder st.1 root := by
  intro qs
  induction qs with
  | nil => intro st root; rfl
  | cons q rest ih =>
    intro st root
    rw [List.foldl_cons]
    cases st with
    | mk fs0 err =>
      cases err with
      | some e => rw [ih (fs0, some e) root]
      | none =>
        rw [ih (mkdirOne fs0 q) root]
        exact mkdirOne_filesUnder fs0 q root

theorem mem_prefixesOf (p q : Path) : q ∈ prefixesOf p ↔ q <+: p := by
  rw [prefixesOf]
  constructor
  · intro h
    rcases List.mem_map.mp h with ⟨k, _, rfl⟩
    exact List.take_prefix k p
  · intro h
    refine List.mem_map.mpr ⟨q.length, ?_, ?_⟩
    · rw [List.mem_range]
      have := h.length_le
      omega
    · exact (List.prefix_iff_eq_take.mp h).symm

theorem mkdirRec_frame (fs : FS) (p q' : Path) (h : ¬ q' <+: p) :
    findNode (mkdirRec fs p).1 q' = findNode fs q' := by
  rw [mkdirRec]
  exact mkdirFold_frame (prefixesOf p) (fs, none) q'
    (fun hm => h ((mem_prefixesOf p q').mp hm))

theorem mkdirRec_filesUnder (fs : FS) (p root : Path) :
    filesUnder (mkdirRec fs p).1 root = filesUnder fs root := by
  rw [mkdirRec]
  exact mkdirFold_filesUnder (prefixesOf p) (fs, none) root

theorem removeExisting_frame (fs : FS) (p q : Path) (h : q ≠ p) :
    findNode (removeExisting fs p).1 q = findNode fs q := by
  rw [removeExisting]
  cases hl : lstatM fs p with
  | ok n =>
    cases n with
    | symlink t => exact find_unlink_ne fs p q h
    | file => rfl
    | dir => rfl
    | inaccessible => rfl
  | error e =>
    show findNode (if e = "ENOENT" then ((fs, none) : FS × Option FileSystemError)
      else (fs, some ⟨"Failed to remove existing file", p, "removeExisting", some e⟩)).1 q =
      findNode fs q
    split_ifs <;> rfl

theorem removeExisting_filesUnder (fs : FS) (p root : Path) :
    filesUnder (removeExisting fs p).1 root = filesUnder fs root := by
  rw [removeExisting]
  cases hl : lstatM fs p with
  | ok n =>
    cases n with
    | symlink t =>
      have hfind : findNode fs p = some (.symlink t) := by
        rw [lstatM] at hl
        cases hf : findNode fs p with
        | none => rw [hf] at hl; exact absurd hl (by simp)
        | some m =>
          rw [hf] at hl
          cases m with
          | inaccessible => exact absurd hl (by simp)
          | file => injection hl with hh; exact absurd hh (by simp)
          | dir => injection hl with hh; exact absurd hh (by simp)
          | symlink t2 => injection hl with hh; exact congrArg some hh
      exact filesUnder_unlink_symlink fs p t root hfind
    | file => rfl
    | dir => rfl
    | inaccessible => rfl
  | error e =>
    show filesUnder (if e = "ENOENT" then ((fs, none) : FS × Option FileSystemError)
      else (fs, some ⟨"Failed to remove existing file", p, "removeExisting", some e⟩)).1 root =
      filesUnder fs root
    split_ifs <;> rfl

theorem symlinkSyncM_ok (fs : FS) (t : LinkText) (target : Path)
    (h : (symlinkSyncM fs t target).2 = none) :
    (symlinkSyncM fs t target).1 = (target, .symlink t) :: fs := by
  rw [symlinkSyncM] at *
  cases hf : findNode fs target with
  | none => rfl
  | some n => rw [hf] at h; exact absurd h (by simp)

theorem not_prefix_dropLast {p : Path} (h : p ≠ []) : ¬ p <+: p.dropLast := by
  intro hpre
  have h1 := hpre.length_le
  have h2 : p.dropLast.length = p.length - 1 := List.length_dropLast p
  have h3 : 0 < p.length := List.length_pos.mpr h
  omega

theorem createSymlinkCore_ok_post (op : String) (fs : FS) (source target : Path)
    (mode : LinkMode)
    (h : (createSymlinkCore op fs source target mode).2 = none) :
    findNode (createSymlinkCore op fs source target mode).1 target =
      some (.symlink (mkLinkText mode (parent target) source)) ∧
    (∀ q, ¬ q <+: target →
      findNode (createSymlinkCore op fs source target mode).1 q = findNode fs q) ∧
    (∀ root, filesUnder (createSymlinkCore op fs source target mode).1 root =
      filesUnder fs root) := by
  simp only [createSymlinkCore] at h ⊢
  generalize hmk : mkdirRec fs (parent target) = st1 at h ⊢
  obtain ⟨fs1, mkErr⟩ := st1
  cases mkErr with
  | some e => exact absurd h (by simp)
  | none =>
    dsimp only at h ⊢
    have hmk1 : fs1 = (mkdirRec fs (parent target)).1 := by rw [hmk]
    generalize hrm : (if existsSyncB fs1 target = true then removeExisting fs1 target
      else (fs1, none)) = st2 at h ⊢
    obtain ⟨fs2, remErr⟩ := st2
    cases remErr with
    | some fe => exact absurd h (by simp)
    | none =>
      dsimp only at h ⊢
      generalize hsl : symlinkSyncM fs2 (mkLinkText mode (parent target) source) target
        = st3 at h ⊢
      obtain ⟨fs3, slErr⟩ := st3
      cases slErr with
      | some e => exact absurd h (by simp)
      | none =>
        dsimp only
        have hfs3 : fs3 = (target, .symlink (mkLinkText mode (parent target) source)) :: fs2 := by
          have := symlinkSyncM_ok fs2 (mkLinkText mode (parent target) source) target
            (by rw [hsl])
          rw [hsl] at this
          exact this
        have hfs2_frame : ∀ q, q ≠ target → findNode fs2 q = findNode fs1 q := by
          intro q hq
          by_cases hex : existsSyncB fs1 target
          · rw [if_pos hex] at hrm
            have hfs2 : fs2 = (removeExisting fs1 target).1 := by rw [hrm]
            rw [hfs2]
            exact removeExisting_frame fs1 target q hq
          · rw [if_neg hex] at hrm
            have hfs2 : fs2 = fs1 := by injection hrm with h1 _; exact h1.symm
            rw [hfs2]
        have hfs2_files : ∀ root, filesUnder fs2 root = filesUnder fs1 root := by
          intro root
          by_cases hex : existsSyncB fs1 target
          · rw [if_pos hex] at hrm
            have hfs2 : fs2 = (removeExisting fs1 target).1 := by rw [hrm]
            rw [hfs2]
            exact removeExisting_filesUnder fs1 target root
          · rw [if_neg hex] at hrm
            have hfs2 : fs2 = fs1 := by injection hrm with h1 _; exact h1.symm
            rw [hfs2]
        refine ⟨?_, ?_, ?_⟩
        · rw [hfs3]
          exact findNode_cons_self fs2 target _
        · intro q hq
          have hqt : q ≠ target := fun he => hq (by rw [he])
          rw [hfs3, findNode_cons_ne _ _ _ _ hqt, hfs2_frame q hqt, hmk1]
          refine mkdirRec_frame fs (parent target) q (fun hpre => hq ?_)
          exact hpre.trans (List.dropLast_prefix target)
        · intro root
          rw [hfs3, filesUnder_cons_nonfile _ _ _ _ (by simp)]
          rw [hfs2_files root, hmk1]
          exact mkdirRec_filesUnder fs (parent target) root

/-- The link text an executed action ends up writing: the mode is recovered
from the action's link text and the text recomputed from the target's parent
directory and the source path, as `createSymlink` does. -/
def execLinkText (a : SyncAction) : LinkText :=
  mkLinkText (if a.linkPath.isAbs then LinkMode.absolute else LinkMode.relative)
    (parent a.targetPath) a.sourcePath

theorem executeAction_skip (fs : FS) (a : SyncAction) (ow : Bool)
    (h : a.action = .skip) : executeAction fs a ow = (fs, none) := by
  rw [executeAction, if_pos h]

theorem executeAction_ok_post (fs : FS) (a : SyncAction) (ow : Bool)
    (hns : a.action ≠ .skip) (h : (executeAction fs a ow).2 = none) :
    findNode (executeAction fs a ow).1 a.targetPath = some (.symlink (execLinkText a)) ∧
    (∀ q, ¬ q <+: a.targetPath → findNode (executeAction fs a ow).1 q = findNode fs q) ∧
    (∀ root, filesUnder (executeAction fs a ow).1 root = filesUnder fs root) := by
  simp only [executeAction, if_neg hns] at h ⊢
  generalize hst : (if a.action = ActionKind.update ∧ existsSyncB fs a.targetPath = true then
    (if ow = true then removeExisting fs a.targetPath
      else (fs, some ⟨"Target exists and overwrite is disabled",
        a.targetPath, "executeAction", some "EEXIST"⟩))
    else (fs, none)) = st at h ⊢
  obtain ⟨fs1, e1⟩ := st
  cases e1 with
  | some e => exact absurd h (by simp)
  | none =>
    dsimp only at h ⊢
    have hfs1_frame : ∀ q, q ≠ a.targetPath → findNode fs1 q = findNode fs q := by
      intro q hq
      by_cases hc : a.action = ActionKind.update ∧ existsSyncB fs a.targetPath = true
      · rw [if_pos hc] at hst
        by_cases how : ow = true
        · rw [if_pos how] at hst
          have hfs1 : fs1 = (removeExisting fs a.targetPath).1 := by rw [hst]
          rw [hfs1]
          exact removeExisting_frame fs a.targetPath q hq
        · rw [if_neg how] at hst
          injection hst with _ h2
          exact absurd h2 (by simp)
      · rw [if_neg hc] at hst
        have hfs1 : fs1 = fs := by injection hst with h1 _; exact h1.symm
        rw [hfs1]
    have hfs1_files : ∀ root, filesUnder fs1 root = filesUnder fs root := by
      intro root
      by_cases hc : a.action = ActionKind.update ∧ existsSyncB fs a.targetPath = true
      · rw [if_pos hc] at hst
        by_cases how : ow = true
        · rw [if_pos how] at hst
          have hfs1 : fs1 = (removeExisting fs a.targetPath).1 := by rw [hst]
          rw [hfs1]
          exact removeExisting_filesUnder fs a.targetPath root
        · rw [if_neg how] at hst
          injection hst with _ h2
          exact absurd h2 (by simp)
      · rw [if_neg hc] at hst
        have hfs1 : fs1 = fs := by injection hst with h1 _; exact h1.symm
        rw [hfs1]
    by_cases hd : a.isDirectory = true
    · rw [if_pos hd] at h ⊢
      rw [createDirectorySymlink] at h ⊢
      obtain ⟨hp1, hp2, hp3⟩ := createSymlinkCore_ok_post "createDirectorySymlink" fs1
        a.sourcePath a.targetPath
        (if a.linkPath.isAbs then LinkMode.absolute else LinkMode.relative) h
      refine ⟨hp1, fun q hq => ?_, fun root => ?_⟩
      · rw [hp2 q hq, hfs1_frame q (fun he => hq (by rw [he]))]
      · rw [hp3 root, hfs1_files root]
    · rw [if_neg hd] at h ⊢
      rw [createSymlink] at h ⊢
      obtain ⟨hp1, hp2, hp3⟩ := createSymlinkCore_ok_post "createSymlink" fs1
        a.sourcePath a.targetPath
        (if a.linkPath.isAbs then LinkMode.absolute else LinkMode.relative) h
      refine ⟨hp1, fun q hq => ?_, fun root => ?_⟩
      · rw [hp2 q hq, hfs1_frame q (fun he => hq (by rw [he]))]
      · rw [hp3 root, hfs1_files root]

theorem executePlan_errors_mono (ow : Bool) :
    ∀ (acts : List SyncAction) (fs : FS) (r : SyncResult),
      ∃ l, (executePlan ow false fs acts r).2.errors = r.errors ++ l := by
  intro acts
  induction acts with
  | nil => intro fs r; exact ⟨[], by simp [executePlan]⟩
  | cons a rest ih =>
    intro fs r
    rw [executePlan_cons_live]
    cases hx : executeAction fs a ow with
    | mk fsx errOpt =>
      cases errOpt with
      | none =>
        obtain ⟨l, hl⟩ := ih fsx (updateResultCounts a.action r)
        exact ⟨l, by rw [hl, (updateResultCounts_sum a.action r).2]⟩
      | some e =>
        obtain ⟨l, hl⟩ := ih fsx
          { r with errors := r.errors ++ [⟨a.file, a.targetWorktree, e.message, e.code⟩] }
        exact ⟨⟨a.file, a.targetWorktree, e.message, e.code⟩ :: l, by rw [hl]; simp⟩

theorem executePlan_success_post (ow : Bool) :
    ∀ (acts : List SyncAction) (fs : FS) (r : SyncResult),
      acts.Pairwise (fun a b =>
        ¬ a.targetPath <+: b.targetPath ∧ ¬ b.targetPath <+: a.targetPath) →
      (executePlan ow false fs acts r).2.errors = r.errors →
      (∀ q, (∀ a ∈ acts, a.action ≠ .skip → ¬ q <+: a.targetPath) →
        findNode (executePlan ow false fs acts r).1 q = findNode fs q) ∧
      (∀ a ∈ acts, a.action ≠ .skip →
        findNode (executePlan ow false fs acts r).1 a.targetPath =
          some (.symlink (execLinkText a))) ∧
      (∀ root, filesUnder (executePlan ow false fs acts r).1 root = filesUnder fs root) ∧
      (∀ a ∈ acts, a.action ≠ .skip →
        ∃ fsi, findNode fsi a.targetPath = findNode fs a.targetPath ∧
          (executeAction fsi a ow).2 = none) := by
  intro acts
  induction acts with
  | nil =>
    intro fs r _ _
    exact ⟨fun _ _ => rfl, fun a ha => absurd ha (List.not_mem_nil a), fun _ => rfl,
      fun a ha => absurd ha (List.not_mem_nil a)⟩
  | cons a rest ih =>
    intro fs r hpair herr
    have hhead : ∀ b ∈ rest, ¬ a.targetPath <+: b.targetPath ∧
        ¬ b.targetPath <+: a.targetPath := (List.pairwise_cons.mp hpair).1
    have hrest : rest.Pairwise _ := (List.pairwise_cons.mp hpair).2
    rw [executePlan_cons_live] at herr ⊢
    cases hx : executeAction fs a ow with
    | mk fsx errOpt =>
      rw [hx] at herr
      cases errOpt with
      | some e =>
        dsimp only at herr
        obtain ⟨l, hl⟩ := executePlan_errors_mono ow rest fsx
          { r with errors := r.errors ++ [⟨a.file, a.targetWorktree, e.message, e.code⟩] }
        rw [hl] at herr
        simp only [List.append_assoc] at herr
        have := congrArg List.length herr
        simp at this
      | none =>
        dsimp only at herr
        have herr' : (executePlan ow false fsx rest (updateResultCounts a.action r)).2.errors =
            (updateResultCounts a.action r).errors := by
          rw [(updateResultCounts_sum a.action r).2]
          exact herr
        obtain ⟨ih1, ih2, ih3, ih4⟩ := ih fsx (updateResultCounts a.action r) hrest herr'
        by_cases hskip : a.action = .skip
        · have hfsx : fsx = fs := by
            have := executeAction_skip fs a ow hskip
            rw [this] at hx
            injection hx with h1 _
            exact h1.symm
          subst hfsx
          refine ⟨?_, ?_, ih3, ?_⟩
          · intro q hq
            exact ih1 q (fun b hb => hq b (List.mem_cons_of_mem a hb))
          · intro b hb hbs
            rcases List.mem_cons.mp hb with rfl | hb
            · exact absurd hskip hbs
            · exact ih2 b hb hbs
          · intro b hb hbs
            rcases List.mem_cons.mp hb with rfl | hb
            · exact absurd hskip hbs
            · exact ih4 b hb hbs
        · have hx2 : (executeAction fs a ow).2 = none := by rw [hx]
          obtain ⟨hp1, hp2, hp3⟩ := executeAction_ok_post fs a ow hskip hx2
          rw [hx] at hp1 hp2 hp3
          dsimp only at hp1 hp2 hp3
          refine ⟨?_, ?_, ?_, ?_⟩
          · intro q hq
            rw [ih1 q (fun b hb => hq b (List.mem_cons_of_mem a hb))]
            exact hp2 q (hq a (List.mem_cons_self a rest) hskip)
          · intro b hb hbs
            rcases List.mem_cons.mp hb with rfl | hb
            · rw [ih1 b.targetPath (fun c hc hcs => ((hhead c hc).1 : _))]
              exact hp1
            · exact ih2 b hb hbs
          · intro root
            rw [ih3 root, hp3 root]
          · intro b hb hbs
            rcases List.mem_cons.mp hb with rfl | hb
            · exact ⟨fs, rfl, hx2⟩
            · obtain ⟨fsi, hfsi, hok⟩ := ih4 b hb hbs
              refine ⟨fsi, ?_, hok⟩
              rw [hfsi]
              exact hp2 b.targetPath (hhead b hb).2

theorem executePlan_all_skip (ow : Bool) :
    ∀ (acts : List SyncAction) (fs : FS) (r : SyncResult),
      (∀ a ∈ acts, a.action = .skip) →
      executePlan ow false fs acts r = (fs, { r with skipped := r.skipped + acts.length }) := by
  intro acts
  induction acts with
  | nil => intro fs r _; simp [executePlan]
  | cons a rest ih =>
    intro fs r h
    rw [executePlan_cons_live,
      executeAction_skip fs a ow (h a (List.mem_cons_self a rest))]
    dsimp only
    rw [ih fs _ (fun b hb => h b (List.mem_cons_of_mem a hb))]
    have hupd : updateResultCounts a.action r = { r with skipped := r.skipped + 1 } := by
      rw [h a (List.mem_cons_self a rest)]
      rfl
    rw [hupd]
    simp only [List.length_cons]
    have harith : r.skipped + 1 + rest.length = r.skipped + (rest.length + 1) := by omega
    rw [harith]

/-! Branch characterizations of the planner's per-pair classification. -/

theorem createSyncAction_no_source (fs : FS) (s t : Worktree) (f : String)
    (mode : LinkMode) (ow : Bool)
    (h : existsSyncB fs (s.path ++ parseRel f) = false) :
    createSyncAction fs s t f mode ow =
      ⟨t.path, f, s.path ++ parseRel f, t.path ++ parseRel f, ⟨false, []⟩, .skip,
        "Source file does not exist", false⟩ := by
  simp only [createSyncAction, h]
  rfl

theorem createSyncAction_create (fs : FS) (s t : Worktree) (f : String)
    (mode : LinkMode) (ow : Bool)
    (hs : existsSyncB fs (s.path ++ parseRel f) = true)
    (ht : existsSyncB fs (t.path ++ parseRel f) = false) :
    createSyncAction fs s t f mode ow =
      ⟨t.path, f, s.path ++ parseRel f, t.path ++ parseRel f,
        mkLinkText mode (parent (t.path ++ parseRel f)) (s.path ++ parseRel f),
        .create, "Creating new symlink", false⟩ := by
  simp only [createSyncAction, hs, ht]
  rfl

theorem createSyncAction_link_correct (fs : FS) (s t : Worktree) (f : String)
    (mode : LinkMode) (ow : Bool) (l : LinkText)
    (hs : existsSyncB fs (s.path ++ parseRel f) = true)
    (hres : existsSyncB fs (t.path ++ parseRel f) = true)
    (hfind : findNode fs (t.path ++ parseRel f) = some (.symlink l))
    (hpt : isSymlinkPointingTo fs (t.path ++ parseRel f) (s.path ++ parseRel f) = true) :
    createSyncAction fs s t f mode ow =
      ⟨t.path, f, s.path ++ parseRel f, t.path ++ parseRel f,
        mkLinkText mode (parent (t.path ++ parseRel f)) (s.path ++ parseRel f),
        .skip, "Symlink already exists and points to correct source", false⟩ := by
  simp only [createSyncAction, hs, hres, hfind, hpt]
  rfl

theorem createSyncAction_link_wrong (fs : FS) (s t : Worktree) (f : String)
    (mode : LinkMode) (ow : Bool) (l : LinkText)
    (hs : existsSyncB fs (s.path ++ parseRel f) = true)
    (hres : existsSyncB fs (t.path ++ parseRel f) = true)
    (hfind : findNode fs (t.path ++ parseRel f) = some (.symlink l))
    (hpt : isSymlinkPointingTo fs (t.path ++ parseRel f) (s.path ++ parseRel f) = false) :
    createSyncAction fs s t f mode ow =
      ⟨t.path, f, s.path ++ parseRel f, t.path ++ parseRel f,
        mkLinkText mode (parent (t.path ++ parseRel f)) (s.path ++ parseRel f),
        .update, "Symlink exists but points to different source", false⟩ := by
  simp only [createSyncAction, hs, hres, hfind, hpt]
  rfl

theorem createSyncAction_plain_noow_action (fs : FS) (s t : Worktree) (f : String)
    (mode : LinkMode)
    (hs : existsSyncB fs (s.path ++ parseRel f) = true)
    (hres : existsSyncB fs (t.path ++ parseRel f) = true)
    (hfind : findNode fs (t.path ++ parseRel f) = some .file ∨
      findNode fs (t.path ++ parseRel f) = some .dir) :
    (createSyncAction fs s t f mode false).action = .skip := by
  cases hfind with
  | inl h => simp [createSyncAction, hs, hres, h]
  | inr h => simp [createSyncAction, hs, hres, h]

theorem createSyncAction_plain_ow (fs : FS) (s t : Worktree) (f : String)
    (mode : LinkMode)
    (hs : existsSyncB fs (s.path ++ parseRel f) = true)
    (hres : existsSyncB fs (t.path ++ parseRel f) = true)
    (hfind : findNode fs (t.path ++ parseRel f) = some .file ∨
      findNode fs (t.path ++ parseRel f) = some .dir) :
    (createSyncAction fs s t f mode true).action = .update ∧
    (createSyncAction fs s t f mode true).targetPath = t.path ++ parseRel f := by
  cases hfind with
  | inl h => constructor <;> simp [createSyncAction, hs, hres, h]
  | inr h => constructor <;> simp [createSyncAction, hs, hres, h]

/-- Executing an `update` action against a plain entry with overwrite enabled
always fails: a regular file makes `removeExisting` refuse (EEXIST), a
directory survives removal and then makes `symlinkSync` fail (EEXIST). -/
theorem executeAction_err_on_plain (fs : FS) (a : SyncAction)
    (hupd : a.action = .update) (hne : a.targetPath ≠ [])
    (hplain : findNode fs a.targetPath = some .file ∨
      findNode fs a.targetPath = some .dir) :
    (executeAction fs a true).2 ≠ none := by
  have hex : existsSyncB fs a.targetPath = true := by
    cases hplain with
    | inl h => exact existsSyncB_of_file h
    | inr h => exact existsSyncB_of_dir h
  have hnskip : ¬ (a.action = .skip) := by rw [hupd]; simp
  simp only [executeAction, if_neg hnskip]
  have hcond : a.action = ActionKind.update ∧ existsSyncB fs a.targetPath = true :=
    ⟨hupd, hex⟩
  rw [if_pos hcond]
  simp only [if_true]
  cases hplain with
  | inl hfile =>
    have hrm : removeExisting fs a.targetPath =
        (fs, some ⟨"Target path contains a regular file. Use --overwrite to replace it.",
          a.targetPath, "removeExisting", some "EEXIST"⟩) := by
      rw [removeExisting, lstatM, hfile]
    rw [hrm]
    simp
  | inr hdir =>
    have hrm : removeExisting fs a.targetPath = (fs, none) := by
      rw [removeExisting, lstatM, hdir]
    rw [hrm]
    dsimp only
    have hcore : ∀ op, (createSymlinkCore op fs a.sourcePath a.targetPath
        (if a.linkPath.isAbs then LinkMode.absolute else LinkMode.relative)).2 ≠ none := by
      intro op
      simp only [createSymlinkCore]
      generalize hmk : mkdirRec fs (parent a.targetPath) = st1
      obtain ⟨fs1, mkErr⟩ := st1
      cases mkErr with
      | some e => simp
      | none =>
        dsimp only
        have hfs1 : fs1 = (mkdirRec fs (parent a.targetPath)).1 := by rw [hmk]
        have hdir1 : findNode fs1 a.targetPath = some .dir := by
          rw [hfs1, mkdirRec_frame fs (parent a.targetPath) a.targetPath
            (not_prefix_dropLast hne)]
          exact hdir
        have hex1 : existsSyncB fs1 a.targetPath = true := existsSyncB_of_dir hdir1
        rw [if_pos hex1]
        have hrm1 : removeExisting fs1 a.targetPath = (fs1, none) := by
          rw [removeExisting, lstatM, hdir1]
        rw [hrm1]
        dsimp only
        have hsl : symlinkSyncM fs1
            (mkLinkText (if a.linkPath.isAbs then LinkMode.absolute else LinkMode.relative)
              (parent a.targetPath) a.sourcePath) a.targetPath =
            (fs1, some "EEXIST") := by
          rw [symlinkSyncM, hdir1]
        rw [hsl]
        simp
    by_cases hd : a.isDirectory = true
    · rw [if_pos hd, createDirectorySymlink]
      exact hcore "createDirectorySymlink"
    · rw [if_neg hd, createSymlink]
      exact hcore "createSymlink"

/-! Plan-level glue for the idempotence proof. -/

theorem createSyncAction_paths (fs : FS) (s t : Worktree) (f : String)
    (mode : LinkMode) (ow : Bool) :
    (createSyncAction fs s t f mode ow).targetPath = t.path ++ parseRel f ∧
    (createSyncAction fs s t f mode ow).sourcePath = s.path ++ parseRel f := by
  unfold createSyncAction
  by_cases h1 : existsSyncB fs (s.path ++ parseRel f)
  · by_cases h2 : existsSyncB fs (t.path ++ parseRel f)
    · cases hn : findNode fs (t.path ++ parseRel f) with
      | none => by_cases how : ow <;> simp [h1, h2, hn, how]
      | some n =>
        cases n with
        | symlink tl =>
          by_cases hp : isSymlinkPointingTo fs (t.path ++ parseRel f) (s.path ++ parseRel f) <;>
            simp [h1, h2, hn, hp]
        | file => by_cases how : ow <;> simp [h1, h2, hn, how]
        | dir => by_cases how : ow <;> simp [h1, h2, hn, how]
        | inaccessible => by_cases how : ow <;> simp [h1, h2, hn, how]
    · simp [h1, h2]
  · simp [h1]

theorem mem_plan_actions (fs : FS) (src : Worktree) (targets : List Worktree)
    (pats ig : List String) (mode : LinkMode) (ow : Bool) (a : SyncAction) :
    a ∈ (createSyncPlan fs src targets pats ig mode ow).syncActions ↔
      ∃ t ∈ targets, ∃ f ∈ ensureConfigFileIncluded (resolveFilePatterns fs src pats ig),
        a = createSyncAction fs src t f mode ow := by
  simp only [createSyncPlan, List.mem_flatMap, List.mem_map]
  constructor
  · rintro ⟨t, ht, f, hf, rfl⟩
    exact ⟨t, ht, f, hf, rfl⟩
  · rintro ⟨t, ht, f, hf, rfl⟩
    exact ⟨t, ht, f, hf, rfl⟩

theorem filesUnder_good (fs : FS) (root : Path) (f : String)
    (hsegs : ∀ e ∈ fs, goodPath e.1 = true)
    (hf : f ∈ filesUnder fs root) :
    goodPath (parseRel f) = true ∧ parseRel f ≠ [] := by
  rw [filesUnder, List.mem_filterMap] at hf
  obtain ⟨e, he, hcond⟩ := hf
  by_cases hc : e.2 = FsNode.file ∧ root <+: e.1 ∧ root.length < e.1.length
  · rw [if_pos hc] at hcond
    injection hcond with hrender
    have hsegsE : goodPath e.1 = true := hsegs e he
    have hgood : goodPath (e.1.drop root.length) = true := goodPath_drop hsegsE _
    have hlen : e.1.drop root.length ≠ [] := by
      intro hnil
      have := congrArg List.length hnil
      simp only [List.length_drop, List.length_nil] at this
      omega
    have hall : ∀ s ∈ e.1.drop root.length, goodSeg s = true := by
      intro s hs
      exact List.all_eq_true.mp hgood s hs
    rw [← hrender, parseRel_render _ hlen hall]
    exact ⟨hgood, hlen⟩
  · rw [if_neg hc] at hcond
    exact absurd hcond (by simp)

theorem mem_resolveFilePatterns_filesUnder (fs : FS) (src : Worktree)
    (pats ig : List String) (f : String)
    (hf : f ∈ resolveFilePatterns fs src pats ig) :
    f ∈ filesUnder fs src.path := by
  rw [resolveFilePatterns] at hf
  have hmem := (sortStrings_perm _).mem_iff.mp hf
  rw [mem_resolve_pre] at hmem
  obtain ⟨⟨p, _, hg⟩, _⟩ := hmem
  rw [globM, List.mem_filter] at hg
  exact hg.1

theorem finalFiles_good (fs : FS) (src : Worktree) (pats ig : List String) (f : String)
    (hsegs : ∀ e ∈ fs, goodPath e.1 = true)
    (hf : f ∈ ensureConfigFileIncluded (resolveFilePatterns fs src pats ig)) :
    goodPath (parseRel f) = true ∧ parseRel f ≠ [] := by
  rw [ensureConfigFileIncluded] at hf
  by_cases hc : CONFIG_FILE_NAME ∈ resolveFilePatterns fs src pats ig
  · rw [if_pos hc] at hf
    exact filesUnder_good fs src.path f hsegs (mem_resolveFilePatterns_filesUnder _ _ _ _ _ hf)
  · rw [if_neg hc] at hf
    rcases List.mem_cons.mp hf with rfl | hf
    · exact ⟨by decide, by decide⟩
    · exact filesUnder_good fs src.path f hsegs (mem_resolveFilePatterns_filesUnder _ _ _ _ _ hf)

theorem resolveFilePatterns_congr (fsA fsB : FS) (src : Worktree) (pats ig : List String)
    (h : filesUnder fsA src.path = filesUnder fsB src.path) :
    resolveFilePatterns fsA src pats ig = resolveFilePatterns fsB src pats ig := by
  simp only [resolveFilePatterns, globM, h]

theorem plan_actions_pairwise (fs : FS) (src : Worktree) (targets : List Worktree)
    (pats ig : List String) (mode : LinkMode) (ow : Bool)
    (htp : targets.Pairwise (fun t u => ¬ t.path <+: u.path ∧ ¬ u.path <+: t.path))
    (hfp : (ensureConfigFileIncluded (resolveFilePatterns fs src pats ig)).Pairwise
      (fun f g => ¬ parseRel f <+: parseRel g ∧ ¬ parseRel g <+: parseRel f)) :
    (createSyncPlan fs src targets pats ig mode ow).syncActions.Pairwise
      (fun a b => ¬ a.targetPath <+: b.targetPath ∧ ¬ b.targetPath <+: a.targetPath) := by
  simp only [createSyncPlan]
  rw [List.flatMap_def, List.pairwise_flatten]
  constructor
  · intro L hL
    rcases List.mem_map.mp hL with ⟨t, _, rfl⟩
    rw [List.pairwise_map]
    refine hfp.imp ?_
    intro f g hfg
    rw [(createSyncAction_paths fs src t f mode ow).1,
      (createSyncAction_paths fs src t g mode ow).1]
    exact ⟨fun hpre => hfg.1 ((List.prefix_append_right_inj t.path).mp hpre),
      fun hpre => hfg.2 ((List.prefix_append_right_inj t.path).mp hpre)⟩
  · rw [List.pairwise_map]
    refine htp.imp ?_
    intro t u htu x hx y hy
    rcases List.mem_map.mp hx with ⟨f, _, rfl⟩
    rcases List.mem_map.mp hy with ⟨g, _, rfl⟩
    rw [(createSyncAction_paths fs src t f mode ow).1,
      (createSyncAction_paths fs src u g mode ow).1]
    constructor
    · intro hpre
      have ht1 : t.path <+: u.path ++ parseRel g :=
        (List.prefix_append t.path (parseRel f)).trans hpre
      rcases List.prefix_or_prefix_of_prefix ht1 (List.prefix_append u.path (parseRel g)) with
        h | h
      · exact htu.1 h
      · exact htu.2 h
    · intro hpre
      have hu1 : u.path <+: t.path ++ parseRel f :=
        (List.prefix_append u.path (parseRel g)).trans hpre
      rcases List.prefix_or_prefix_of_prefix hu1 (List.prefix_append t.path (parseRel f)) with
        h | h
      · exact htu.2 h
      · exact htu.1 h

theorem isSymlinkPointingTo_true_of (fs : FS) (tp sp : Path) (l : LinkText)
    (hfind : findNode fs tp = some (.symlink l))
    (hres : resolveAt (parent tp) l = sp)
    (hok : existsSyncB fs tp = true)
    (hnorm : normAbs sp = sp) :
    isSymlinkPointingTo fs tp sp = true := by
  rw [isSymlinkPointingTo_eq, hfind]
  show (existsSyncB fs tp && decide (resolveAt (parent tp) l = normAbs sp)) = true
  rw [hok, hres, hnorm]
  simp

theorem isSymlinkPointingTo_true_elim (fs : FS) (tp sp : Path) (l : LinkText)
    (hfind : findNode fs tp = some (.symlink l))
    (hpt : isSymlinkPointingTo fs tp sp = true) :
    existsSyncB fs tp = true ∧ resolveAt (parent tp) l = normAbs sp := by
  rw [isSymlinkPointingTo_eq, hfind] at hpt
  simpa using hpt

theorem execLinkText_record (wtp : Path) (f : String) (sp tp : Path) (mode : LinkMode)
    (k : ActionKind) (r : String) :
    execLinkText ⟨wtp, f, sp, tp, mkLinkText mode (parent tp) sp, k, r, false⟩ =
      mkLinkText mode (parent tp) sp := by
  cases mode <;> rfl

theorem sync_unfold_valid (fs : FS) (src : Worktree) (targets : List Worktree)
    (pats ig : List String) (mode : LinkMode) (ow dr : Bool)
    (hv : (validatePlan fs
      (createSyncPlan fs src targets pats ig mode ow)).valid = true) :
    sync fs src targets pats ig mode ow dr =
      (let st := executePlan ow dr fs
        (createSyncPlan fs src targets pats ig mode ow).syncActions ⟨false, 0, 0, 0, []⟩
       (st.1, { st.2 with success := st.2.errors.isEmpty })) := by
  rw [sync]
  rw [if_neg (by rw [hv]; simp)]

/-- C2: a sync run that completes with an empty error list is idempotent —
re-running over the same configuration and the resulting filesystem plans
only `skip` actions, changes nothing on disk, and reports created = 0,
updated = 0 and an empty error list. -/
theorem sync_idempotent
    (fs : FS) (src : Worktree) (targets : List Worktree)
    (pats ig : List String) (mode : LinkMode) (ow : Bool)
    (hsegs : ∀ e ∈ fs, goodPath e.1 = true)
    (hsrcdir : findNode fs src.path = some .dir)
    (hsrcgood : goodPath src.path = true)
    (htgood : ∀ t ∈ targets, goodPath t.path = true)
    (hnp : ∀ t ∈ targets, ¬ src.path <+: t.path ∧ ¬ t.path <+: src.path)
    (htp : targets.Pairwise (fun t u => ¬ t.path <+: u.path ∧ ¬ u.path <+: t.path))
    (hfp : (ensureConfigFileIncluded (resolveFilePatterns fs src pats ig)).Pairwise
      (fun f g => ¬ parseRel f <+: parseRel g ∧ ¬ parseRel g <+: parseRel f))
    (hsrcfiles : ∀ f ∈ ensureConfigFileIncluded (resolveFilePatterns fs src pats ig),
      findNode fs (src.path ++ parseRel f) = some .file ∨
      findNode fs (src.path ++ parseRel f) = none)
    (herr : (sync fs src targets pats ig mode ow false).2.errors = []) :
    (∀ a ∈ (createSyncPlan (sync fs src targets pats ig mode ow false).1 src targets
        pats ig mode ow).syncActions, a.action = .skip) ∧
    (sync (sync fs src targets pats ig mode ow false).1 src targets pats ig mode ow
        false).1 = (sync fs src targets pats ig mode ow false).1 ∧
    (sync (sync fs src targets pats ig mode ow false).1 src targets pats ig mode ow
        false).2.created = 0 ∧
    (sync (sync fs src targets pats ig mode ow false).1 src targets pats ig mode ow
        false).2.updated = 0 ∧
    (sync (sync fs src targets pats ig mode ow false).1 src targets pats ig mode ow
        false).2.errors = [] ∧
    (sync (sync fs src targets pats ig mode ow false).1 src targets pats ig mode ow
        false).2.success = true := by
  have hsrcex : existsSyncB fs src.path = true := existsSyncB_of_dir hsrcdir
  have hv1 : (validatePlan fs (createSyncPlan fs src targets pats ig mode ow)).valid = true := by
    simp [validatePlan, validateWorktreeAccess, createSyncPlan, hsrcex]
  have hsync1 := sync_unfold_valid fs src targets pats ig mode ow false hv1
  rw [hsync1] at herr
  have hE : (executePlan ow false fs
      (createSyncPlan fs src targets pats ig mode ow).syncActions
      ⟨false, 0, 0, 0, []⟩).2.errors = [] := herr
  have hpair := plan_actions_pairwise fs src targets pats ig mode ow htp hfp
  obtain ⟨P1, P2, P3, P4⟩ := executePlan_success_post ow
    (createSyncPlan fs src targets pats ig mode ow).syncActions fs ⟨false, 0, 0, 0, []⟩
    hpair hE
  have hfs1 : (sync fs src targets pats ig mode ow false).1 =
      (executePlan ow false fs
        (createSyncPlan fs src targets pats ig mode ow).syncActions
        ⟨false, 0, 0, 0, []⟩).1 := by
    rw [hsync1]
  have hsym : Symmetric (fun a b : SyncAction =>
      ¬ a.targetPath <+: b.targetPath ∧ ¬ b.targetPath <+: a.targetPath) := by
    intro a b hab
    exact ⟨hab.2, hab.1⟩
  have hall := hpair.forall hsym
  have hsrc_untouched : ∀ q, src.path <+: q →
      ∀ a ∈ (createSyncPlan fs src targets pats ig mode ow).syncActions,
        a.action ≠ .skip → ¬ q <+: a.targetPath := by
    intro q hq a ha _ hpre
    obtain ⟨t, ht, f', _, rfl⟩ := (mem_plan_actions fs src targets pats ig mode ow a).mp ha
    rw [(createSyncAction_paths fs src t f' mode ow).1] at hpre
    have h1 : src.path <+: t.path ++ parseRel f' := hq.trans hpre
    rcases List.prefix_or_prefix_of_prefix h1 (List.prefix_append t.path (parseRel f')) with
      h | h
    · exact (hnp t ht).1 h
    · exact (hnp t ht).2 h
  have hsrcroot1 : findNode (sync fs src targets pats ig mode ow false).1 src.path =
      some .dir := by
    rw [hfs1, P1 src.path (hsrc_untouched src.path (List.prefix_refl src.path)), hsrcdir]
  have hresolve : resolveFilePatterns (sync fs src targets pats ig mode ow false).1
      src pats ig = resolveFilePatterns fs src pats ig := by
    refine resolveFilePatterns_congr _ _ _ _ _ ?_
    rw [hfs1]
    exact P3 src.path
  -- every re-planned action is a skip
  have hallskip : ∀ a ∈ (createSyncPlan (sync fs src targets pats ig mode ow false).1
      src targets pats ig mode ow).syncActions, a.action = .skip := by
    intro a ha
    obtain ⟨t, ht, f, hf2, rfl⟩ := (mem_plan_actions _ src targets pats ig mode ow a).mp ha
    rw [ensureConfigFileIncluded, hresolve, ← ensureConfigFileIncluded] at hf2
    have hfgood := finalFiles_good fs src pats ig f hsegs hf2
    have hspgood : goodPath (src.path ++ parseRel f) = true :=
      goodPath_append hsrcgood hfgood.1
    have htpgood : goodPath (t.path ++ parseRel f) = true :=
      goodPath_append (htgood t ht) hfgood.1
    have htpne : t.path ++ parseRel f ≠ [] := by
      intro hnil
      exact hfgood.2 (by simpa using (List.append_eq_nil.mp hnil).2)
    have ha1mem : createSyncAction fs src t f mode ow ∈
        (createSyncPlan fs src targets pats ig mode ow).syncActions :=
      (mem_plan_actions fs src targets pats ig mode ow _).mpr ⟨t, ht, f, hf2, rfl⟩
    by_cases h1 : existsSyncB fs (src.path ++ parseRel f) = true
    · -- the source file is a plain file
      have hfile : findNode fs (src.path ++ parseRel f) = some .file := by
        rcases hsrcfiles f hf2 with h | h
        · exact h
        · rw [existsSyncB_of_none h] at h1
          exact absurd h1 (by simp)
      have hsp1 : findNode (sync fs src targets pats ig mode ow false).1
          (src.path ++ parseRel f) = some .file := by
        rw [hfs1, P1 _ (hsrc_untouched _ (List.prefix_append src.path (parseRel f))), hfile]
      have hs1 : existsSyncB (sync fs src targets pats ig mode ow false).1
          (src.path ++ parseRel f) = true := existsSyncB_of_file hsp1
      -- helper: the run-1 target path is untouched when the run-1 action skipped
      have huntouched : (createSyncAction fs src t f mode ow).action = .skip →
          findNode (sync fs src targets pats ig mode ow false).1 (t.path ++ parseRel f) =
            findNode fs (t.path ++ parseRel f) := by
        intro hskip
        rw [hfs1]
        refine P1 _ ?_
        intro b hb hbs hpre
        by_cases hba : b = createSyncAction fs src t f mode ow
        · rw [hba] at hbs
          exact hbs hskip
        · have hrel := hall ha1mem hb (fun he => hba he.symm)
          rw [(createSyncAction_paths fs src t f mode ow).1] at hrel
          exact hrel.1 hpre
      by_cases h2 : existsSyncB fs (t.path ++ parseRel f) = true
      · obtain ⟨n, hfind0, hninacc⟩ := existsSyncB_true_elim h2
        cases n with
        | inaccessible => exact absurd rfl hninacc
        | file =>
          by_cases how : ow = true
          · -- run 1 would have failed on this plain entry
            subst how
            have hplan := createSyncAction_plain_ow fs src t f mode h1 h2 (Or.inl hfind0)
            obtain ⟨fsi, hfsi, hok⟩ := P4 _ ha1mem (by rw [hplan.1]; simp)
            rw [hplan.2, hfind0] at hfsi
            exact absurd hok (executeAction_err_on_plain fsi _ hplan.1
              (by rw [hplan.2]; exact htpne) (by rw [hplan.2]; exact Or.inl hfsi))
          · have how' : ow = false := by
              cases ow
              · rfl
              · exact absurd rfl how
            subst how'
            have hskip1 : (createSyncAction fs src t f mode false).action = .skip :=
              createSyncAction_plain_noow_action fs src t f mode h1 h2 (Or.inl hfind0)
            have hfr := huntouched hskip1
            have hfind1 : findNode (sync fs src targets pats ig mode false false).1
                (t.path ++ parseRel f) = some .file := by rw [hfr, hfind0]
            exact createSyncAction_plain_noow_action _ src t f mode hs1
              (existsSyncB_of_file hfind1) (Or.inl hfind1)
        | dir =>
          by_cases how : ow = true
          · subst how
            have hplan := createSyncAction_plain_ow fs src t f mode h1 h2 (Or.inr hfind0)
            obtain ⟨fsi, hfsi, hok⟩ := P4 _ ha1mem (by rw [hplan.1]; simp)
            rw [hplan.2, hfind0] at hfsi
            exact absurd hok (executeAction_err_on_plain fsi _ hplan.1
              (by rw [hplan.2]; exact htpne) (by rw [hplan.2]; exact Or.inr hfsi))
          · have how' : ow = false := by
              cases ow
              · rfl
              · exact absurd rfl how
            subst how'
            have hskip1 : (createSyncAction fs src t f mode false).action = .skip :=
              createSyncAction_plain_noow_action fs src t f mode h1 h2 (Or.inr hfind0)
            have hfr := huntouched hskip1
            have hfind1 : findNode (sync fs src targets pats ig mode false false).1
                (t.path ++ parseRel f) = some .dir := by rw [hfr, hfind0]
            exact createSyncAction_plain_noow_action _ src t f mode hs1
              (existsSyncB_of_dir hfind1) (Or.inr hfind1)
        | symlink l0 =>
          by_cases hpt0 : isSymlinkPointingTo fs (t.path ++ parseRel f)
              (src.path ++ parseRel f) = true
          · -- already correct in run 1: untouched, still correct in run 2
            have hrec := createSyncAction_link_correct fs src t f mode ow l0 h1 h2 hfind0 hpt0
            have hskip1 : (createSyncAction fs src t f mode ow).action = .skip := by
              rw [hrec]
            have hfr := huntouched hskip1
            have hfind1 : findNode (sync fs src targets pats ig mode ow false).1
                (t.path ++ parseRel f) = some (.symlink l0) := by rw [hfr, hfind0]
            have hres0 : resolveAt (parent (t.path ++ parseRel f)) l0 =
                src.path ++ parseRel f := by
              have := (isSymlinkPointingTo_true_elim fs _ _ l0 hfind0 hpt0).2
              rw [normAbs_eq_self hspgood] at this
              exact this
            have hex1 : existsSyncB (sync fs src targets pats ig mode ow false).1
                (t.path ++ parseRel f) = true := by
              refine existsSyncB_link_file hfind1 ?_
              rw [hres0]
              exact hsp1
            have hpt1 := isSymlinkPointingTo_true_of _ _ _ l0 hfind1 hres0 hex1
              (normAbs_eq_self hspgood)
            rw [createSyncAction_link_correct _ src t f mode ow l0 hs1 hex1 hfind1 hpt1]
          · -- pointing elsewhere: run 1 rewrote the link to the correct source
            have hpt0' : isSymlinkPointingTo fs (t.path ++ parseRel f)
                (src.path ++ parseRel f) = false := by
              cases hc : isSymlinkPointingTo fs (t.path ++ parseRel f)
                  (src.path ++ parseRel f)
              · rfl
              · exact absurd hc hpt0
            have hrec := createSyncAction_link_wrong fs src t f mode ow l0 h1 h2 hfind0 hpt0'
            rw [hrec] at ha1mem
            have hfind1 : findNode (sync fs src targets pats ig mode ow false).1
                (t.path ++ parseRel f) =
                some (.symlink (mkLinkText mode (parent (t.path ++ parseRel f))
                  (src.path ++ parseRel f))) := by
              rw [hfs1]
              have := P2 _ ha1mem (by simp)
              rw [execLinkText_record] at this
              exact this
            have hres1 : resolveAt (parent (t.path ++ parseRel f))
                (mkLinkText mode (parent (t.path ++ parseRel f)) (src.path ++ parseRel f)) =
                src.path ++ parseRel f :=
              resolveAt_mkLinkText mode (goodPath_dropLast htpgood) hspgood
            have hex1 : existsSyncB (sync fs src targets pats ig mode ow false).1
                (t.path ++ parseRel f) = true := by
              refine existsSyncB_link_file hfind1 ?_
              rw [hres1]
              exact hsp1
            have hpt1 := isSymlinkPointingTo_true_of _ _ _ _ hfind1 hres1 hex1
              (normAbs_eq_self hspgood)
            rw [createSyncAction_link_correct _ src t f mode ow _ hs1 hex1 hfind1 hpt1]
      · -- run 1 created the link afresh
        have h2' : existsSyncB fs (t.path ++ parseRel f) = false := by
          cases hc : existsSyncB fs (t.path ++ parseRel f)
          · rfl
          · exact absurd hc h2
        have hrec := createSyncAction_create fs src t f mode ow h1 h2'
        rw [hrec] at ha1mem
        have hfind1 : findNode (sync fs src targets pats ig mode ow false).1
            (t.path ++ parseRel f) =
            some (.symlink (mkLinkText mode (parent (t.path ++ parseRel f))
              (src.path ++ parseRel f))) := by
          rw [hfs1]
          have := P2 _ ha1mem (by simp)
          rw [execLinkText_record] at this
          exact this
        have hres1 : resolveAt (parent (t.path ++ parseRel f))
            (mkLinkText mode (parent (t.path ++ parseRel f)) (src.path ++ parseRel f)) =
            src.path ++ parseRel f :=
          resolveAt_mkLinkText mode (goodPath_dropLast htpgood) hspgood
        have hex1 : existsSyncB (sync fs src targets pats ig mode ow false).1
            (t.path ++ parseRel f) = true := by
          refine existsSyncB_link_file hfind1 ?_
          rw [hres1]
          exact hsp1
        have hpt1 := isSymlinkPointingTo_true_of _ _ _ _ hfind1 hres1 hex1
          (normAbs_eq_self hspgood)
        rw [createSyncAction_link_correct _ src t f mode ow _ hs1 hex1 hfind1 hpt1]
    · -- the source file is missing: run 2 skips as well
      have h1' : existsSyncB fs (src.path ++ parseRel f) = false := by
        cases hc : existsSyncB fs (src.path ++ parseRel f)
        · rfl
        · exact absurd hc h1
      have hnone : findNode fs (src.path ++ parseRel f) = none := by
        rcases hsrcfiles f hf2 with h | h
        · rw [existsSyncB_of_file h] at h1'
          exact absurd h1' (by simp)
        · exact h
      have hsp1 : findNode (sync fs src targets pats ig mode ow false).1
          (src.path ++ parseRel f) = none := by
        rw [hfs1, P1 _ (hsrc_untouched _ (List.prefix_append src.path (parseRel f))), hnone]
      rw [createSyncAction_no_source _ src t f mode ow (existsSyncB_of_none hsp1)]
  -- assemble the final result from the all-skip plan
  have hv2 : (validatePlan (sync fs src targets pats ig mode ow false).1
      (createSyncPlan (sync fs src targets pats ig mode ow false).1 src targets pats ig
        mode ow)).valid = true := by
    simp [validatePlan, validateWorktreeAccess, createSyncPlan,
      existsSyncB_of_dir hsrcroot1]
  have hsync2 := sync_unfold_valid (sync fs src targets pats ig mode ow false).1 src
    targets pats ig mode ow false hv2
  have hexec2 := executePlan_all_skip ow
    (createSyncPlan (sync fs src targets pats ig mode ow false).1 src targets pats ig
      mode ow).syncActions
    (sync fs src targets pats ig mode ow false).1 ⟨false, 0, 0, 0, []⟩ hallskip
  refine ⟨hallskip, ?_, ?_, ?_, ?_, ?_⟩
  all_goals rw [hsync2]
  all_goals simp only [hexec2]
  all_goals rfl

/-- Concrete instantiation of the idempotence theorem: a source tree holding
one shared file, one target tree, relative links, overwrite disabled. The
first run succeeds with no errors and the second run changes nothing. -/
theorem sync_idempotent_witness :
    (sync [(["s"], FsNode.dir), (["s", "a.txt"], FsNode.file)]
        ⟨["s"], "main", "abc", true⟩ [⟨["t"], "feature", "def", false⟩]
        ["a.txt"] [] .relative false false).2.errors = [] ∧
    (sync (sync [(["s"], FsNode.dir), (["s", "a.txt"], FsNode.file)]
          ⟨["s"], "main", "abc", true⟩ [⟨["t"], "feature", "def", false⟩]
          ["a.txt"] [] .relative false false).1
        ⟨["s"], "main", "abc", true⟩ [⟨["t"], "feature", "def", false⟩]
        ["a.txt"] [] .relative false false).1 =
      (sync [(["s"], FsNode.dir), (["s", "a.txt"], FsNode.file)]
        ⟨["s"], "main", "abc", true⟩ [⟨["t"], "feature", "def", false⟩]
        ["a.txt"] [] .relative false false).1 ∧
    (sync (sync [(["s"], FsNode.dir), (["s", "a.txt"], FsNode.file)]
          ⟨["s"], "main", "abc", true⟩ [⟨["t"], "feature", "def", false⟩]
          ["a.txt"] [] .relative false false).1
        ⟨["s"], "main", "abc", true⟩ [⟨["t"], "feature", "def", false⟩]
        ["a.txt"] [] .relative false false).2.created = 0 ∧
    (sync (sync [(["s"], FsNode.dir), (["s", "a.txt"], FsNode.file)]
          ⟨["s"], "main", "abc", true⟩ [⟨["t"], "feature", "def", false⟩]
          ["a.txt"] [] .relative false false).1
        ⟨["s"], "main", "abc", true⟩ [⟨["t"], "feature", "def", false⟩]
        ["a.txt"] [] .relative false false).2.updated = 0 ∧
    (sync (sync [(["s"], FsNode.dir), (["s", "a.txt"], FsNode.file)]
          ⟨["s"], "main", "abc", true⟩ [⟨["t"], "feature", "def", false⟩]
          ["a.txt"] [] .relative false false).1
        ⟨["s"], "main", "abc", true⟩ [⟨["t"], "feature", "def", false⟩]
        ["a.txt"] [] .relative false false).2.errors = [] ∧
    (sync (sync [(["s"], FsNode.dir), (["s", "a.txt"], FsNode.file)]
          ⟨["s"], "main", "abc", true⟩ [⟨["t"], "feature", "def", false⟩]
          ["a.txt"] [] .relative false false).1
        ⟨["s"], "main", "abc", true⟩ [⟨["t"], "feature", "def", false⟩]
        ["a.txt"] [] .relative false false).2.success = true :=
  have h := sync_idempotent
    [(["s"], FsNode.dir), (["s", "a.txt"], FsNode.file)]
    ⟨["s"], "main", "abc", true⟩ [⟨["t"], "feature", "def", false⟩]
    ["a.txt"] [] .relative false
    (by decide) (by decide) (by decide) (by decide) (by decide) (by decide)
    (by decide) (by decide) (by decide)
  ⟨by decide, h.2.1, h.2.2.1, h.2.2.2.1, h.2.2.2.2.1, h.2.2.2.2.2⟩

end FileSync
